import Mathlib

/-!
# VibeCheck scan engine — verification of the spec claims

Shallow embedding of the VibeCheck QA-scan pipeline (crawler URL
normalization, report builder, broken-link checker, prompt cache, prompt
generator, and the orchestrator progress traces), translated from the
TypeScript sources, together with theorems settling the spec claims.

Modelling conventions:
* JavaScript strings are Lean `String`s; `slice(0,-1)`, `endsWith('/')`,
  `slice(0,n)` and `includes` are embedded as character-list operations
  (JS operates on UTF-16 units; the inputs involved are ASCII).
* `Math.round` on non-negative rationals is embedded exactly as
  `jsRound num den = ⌊num/den + 1/2⌋` (JS rounds half away from zero,
  which for non-negative arguments is half up; the floating-point
  evaluation agrees with the exact rational one on the values reached
  by the code paths under study).
* The WHATWG `new URL` constructor used by `crawler.ts` is an external
  platform facility; it is modelled for absolute `http`/`https` URLs
  (scheme case-insensitive, any number of slashes after the scheme,
  host lowercased, first `#` starts the fragment, first `?` of the
  remainder starts the query, empty path serializes as `/`).  Userinfo,
  ports, percent-encoding and non-http schemes are outside the model;
  strings outside the modelled subset count as parse failures, matching
  the `try/catch` structure of the source.
* `uuidv4()`, `new Date().toISOString()` and `createHash('sha256')` are
  external; they are passed in as explicit supplies (`freshId`,
  `timestamp`, `digest`).
-/

/-- Exact embedding of JS `Math.round (num / den)` for non-negative
integers: floor of `num/den + 1/2`. -/
def jsRound (num den : Nat) : Nat := (2 * num + den) / (2 * den)

/-- Does the character list `l` start with `sub`? (helper for `includes`). -/
def startsChars : List Char → List Char → Bool
  | [], _ => true
  | _ :: _, [] => false
  | c :: cs, d :: ds => c == d && startsChars cs ds

/-- Does `sub` occur inside `l`? (helper for `includes`). -/
def inclChars (sub : List Char) : List Char → Bool
  | [] => startsChars sub []
  | c :: cs => startsChars sub (c :: cs) || inclChars sub cs

/-- Embedding of JS `s.includes(sub)`. -/
def strIncludes (s sub : String) : Bool := inclChars sub.data s.data

/-- Embedding of JS `s.slice(0, -1)`: drop the last character. -/
def dropLastChar (s : String) : String := ⟨s.data.dropLast⟩

/-- Embedding of JS `s.endsWith('/')`: the last character is `/`. -/
def endsSlash (s : String) : Bool := s.data.getLast? == some '/'

/-- Embedding of JS `s.slice(0, n)` for `n ≥ 0`: take the first `n`
characters. -/
def sliceTo (s : String) (n : Nat) : String := ⟨s.data.take n⟩

/-! ## Data model (`types.ts`) -/

/-- `Severity` — closed three-value enum (`types.ts`). -/
inductive Severity where
  | critical
  | warning
  | info
deriving DecidableEq, Repr

/-- `BugType` — closed six-value enum (`types.ts`). -/
inductive BugType where
  | consoleError
  | networkError
  | brokenLink
  | brokenImage
  | accessibility
  | responsive
deriving DecidableEq, Repr

/-- The string value of a `BugType` (the TS union is a union of string
literals). -/
def BugType.str : BugType → String
  | .consoleError => "console-error"
  | .networkError => "network-error"
  | .brokenLink => "broken-link"
  | .brokenImage => "broken-image"
  | .accessibility => "accessibility"
  | .responsive => "responsive"

/-- `Bug` (`types.ts`). -/
structure Bug where
  id : String
  type : BugType
  severity : Severity
  title : String
  details : String
  page : String
  fixPrompt : String
deriving DecidableEq, Repr

/-- `PageReport` (`types.ts`); the optional screenshot is never set by the
core pipeline and is omitted. -/
structure PageReport where
  url : String
  title : String
  bugs : List Bug
deriving DecidableEq, Repr

/-- `ProgressEvent` (`types.ts`). -/
structure ProgressEvent where
  phase : String
  message : String
  progress : Nat
deriving DecidableEq, Repr

/-- `ReportSummary` (`types.ts`): `byType` is a `Record<BugType, number>`,
modelled as an association list in key-insertion order. -/
structure ReportSummary where
  totalBugs : Nat
  critical : Nat
  warnings : Nat
  info : Nat
  byType : List (BugType × Nat)
deriving DecidableEq, Repr

/-- `QAReport` (`types.ts`); `warnings` is optional. -/
structure QAReport where
  url : String
  timestamp : String
  pagesFound : Nat
  pages : List PageReport
  summary : ReportSummary
  warnings : Option (List String)
deriving DecidableEq, Repr

/-! ## Report builder (`report-builder.ts`) -/

/-- `SEVERITY_ORDER` from `report-builder.ts`. -/
def SEVERITY_ORDER : Severity → Nat
  | .critical => 0
  | .warning => 1
  | .info => 2

/-- `ALL_BUG_TYPES` from `report-builder.ts`, in source order. -/
def ALL_BUG_TYPES : List BugType :=
  [.consoleError, .networkError, .brokenLink, .brokenImage, .accessibility, .responsive]

/-- `bugFingerprint` from `report-builder.ts`:
`` `${bug.type}::${bug.title}::${bug.details}` ``. -/
def bugFingerprint (bug : Bug) : String :=
  bug.type.str ++ "::" ++ bug.title ++ "::" ++ bug.details

/-- `byType[bug.type]++` on the association-list embedding of the record. -/
def incType (m : List (BugType × Nat)) (t : BugType) : List (BugType × Nat) :=
  m.map (fun kv => if kv.1 = t then (kv.1, kv.2 + 1) else kv)

/-- Accumulator of the counting loop in `buildSummary`. -/
structure SummaryAcc where
  byType : List (BugType × Nat)
  critical : Nat
  warnings : Nat
  info : Nat

/-- One iteration of the `for (const bug of bugs)` loop in `buildSummary`. -/
def summaryStep (acc : SummaryAcc) (bug : Bug) : SummaryAcc :=
  let acc := { acc with byType := incType acc.byType bug.type }
  match bug.severity with
  | .critical => { acc with critical := acc.critical + 1 }
  | .warning => { acc with warnings := acc.warnings + 1 }
  | .info => { acc with info := acc.info + 1 }

/-- `buildSummary` from `report-builder.ts`: the `byType` record is
initialized with all six types mapped to zero, then each bug increments
its type entry and its severity counter. -/
def buildSummary (bugs : List Bug) : ReportSummary :=
  let init : SummaryAcc := ⟨ALL_BUG_TYPES.map (fun t => (t, 0)), 0, 0, 0⟩
  let acc := bugs.foldl summaryStep init
  { totalBugs := bugs.length
    critical := acc.critical
    warnings := acc.warnings
    info := acc.info
    byType := acc.byType }

/-- The dedup/ID-assignment loop over one page's bugs in `buildReport`:
threads the `seenFingerprints` set and the `uuidv4()` supply (`freshId`
applied to a running counter).  Returns the kept bugs, the grown seen
set and the advanced counter. -/
def dedupBugs (freshId : Nat → String) :
    List Bug → List String → Nat → List Bug × List String × Nat
  | [], seen, n => ([], seen, n)
  | bug :: rest, seen, n =>
    if bugFingerprint bug ∈ seen then dedupBugs freshId rest seen n
    else
      let r := dedupBugs freshId rest (bugFingerprint bug :: seen) (n + 1)
      ({ bug with id := freshId n } :: r.1, r.2)

/-- The comparator sort `uniqueBugs.sort((a, b) => SEVERITY_ORDER[a.severity]
- SEVERITY_ORDER[b.severity])`.  ES2019 `Array.prototype.sort` is stable,
and any stable sort by this comparator produces the same list, so the
embedding uses a stable insertion sort. -/
def sortBySeverity (bugs : List Bug) : List Bug :=
  List.insertionSort (fun a b => SEVERITY_ORDER a.severity ≤ SEVERITY_ORDER b.severity) bugs

/-- The `pages.map (page => ...)` body of `buildReport`, with the shared
`seenFingerprints` set threaded page to page. -/
def processPages (freshId : Nat → String) :
    List PageReport → List String → Nat → List PageReport × List String × Nat
  | [], seen, n => ([], seen, n)
  | page :: rest, seen, n =>
    let d := dedupBugs freshId page.bugs seen n
    let r := processPages freshId rest d.2.1 d.2.2
    ({ page with bugs := sortBySeverity d.1 } :: r.1, r.2)

/-- `buildReport` from `report-builder.ts`.  `freshId` supplies the
`uuidv4()` values and `timestamp` the `new Date().toISOString()` value. -/
def buildReport (freshId : Nat → String) (timestamp : String)
    (url : String) (pages : List PageReport) : QAReport :=
  let processedPages := (processPages freshId pages [] 0).1
  let allBugs := processedPages.flatMap (fun p => p.bugs)
  { url := url
    timestamp := timestamp
    pagesFound := pages.length
    pages := processedPages
    summary := buildSummary allBugs
    warnings := none }

/-! ## URL model and `normalizeUrl` (`crawler.ts`) -/

/-- The parsed-URL record underlying `new URL(...)`, restricted to the
components `normalizeUrl` touches (see the header for the modelled
subset). -/
structure URLRec where
  scheme : String
  host : String
  pathname : String
  search : String
  hash : String
deriving DecidableEq, Repr

/-- WHATWG serialization of the modelled record:
`scheme://host` + pathname + search + hash. -/
def URLRec.toStr (r : URLRec) : String :=
  r.scheme ++ "://" ++ r.host ++ r.pathname ++ r.search ++ r.hash

/-- Characters ending the host section of a special (http/https) URL. -/
def isHostEnd (c : Char) : Bool := c == '/' || c == '?' || c == '\\'

/-- Case-insensitively strip `scheme` from the front of `cs`, returning
the remainder. -/
def dropSchemeCI : List Char → List Char → Option (List Char)
  | [], rest => some rest
  | _ :: _, [] => none
  | p :: ps, c :: cs => if c.toLower == p then dropSchemeCI ps cs else none

/-- Parse the part after `scheme:` of a special URL: skip any number of
slashes, read the host up to a delimiter, split the remainder at the
first `#` into core and fragment and the core at the first `?` into
path and query.  An empty host is a parse failure (`new URL` throws). -/
def parseAfterScheme (scheme : String) (rest : List Char) : Option URLRec :=
  let afterSlashes := rest.dropWhile (fun c => c == '/' || c == '\\')
  let core := afterSlashes.takeWhile (fun c => c != '#')
  let hashPart := afterSlashes.dropWhile (fun c => c != '#')
  let auth := core.takeWhile (fun c => !isHostEnd c)
  let tail := core.dropWhile (fun c => !isHostEnd c)
  let path := tail.takeWhile (fun c => c != '?')
  let query := tail.dropWhile (fun c => c != '?')
  if auth.isEmpty then none
  else
    some { scheme := scheme
           host := ⟨auth.map Char.toLower⟩
           pathname := if path.isEmpty then "/" else ⟨path⟩
           search := ⟨query⟩
           hash := ⟨hashPart⟩ }

/-- Model of `new URL(url)` for absolute http/https URLs; `none` models
the constructor throwing. -/
def urlParse (url : String) : Option URLRec :=
  match dropSchemeCI "https:".data url.data with
  | some rest => parseAfterScheme "https" rest
  | none =>
    match dropSchemeCI "http:".data url.data with
    | some rest => parseAfterScheme "http" rest
    | none => none

/-- `normalizeUrl` from `crawler.ts`: parse, clear the fragment,
serialize, strip a trailing `/` unless the path is exactly `/`, then
also strip a trailing `/` when the path is exactly `/`; on parse
failure return the input unchanged. -/
def normalizeUrl (url : String) : String :=
  match urlParse url with
  | none => url
  | some parsed =>
    let normalized := URLRec.toStr { parsed with hash := "" }
    let normalized :=
      if endsSlash normalized && parsed.pathname != "/" then dropLastChar normalized
      else normalized
    let normalized :=
      if parsed.pathname == "/" && endsSlash normalized then dropLastChar normalized
      else normalized
    normalized

/-! ## Crawler progress (`crawlPages` in `crawler.ts`)

`crawlPages` drives a headless crawler; its observable progress behaviour
is the sequence of `onProgress` events.  The model takes the discovered
pages (in discovery order) as input and produces that sequence. -/

/-- `DiscoveredPage` (`crawler.ts`). -/
structure DiscoveredPage where
  url : String
  title : String
  loadTime : Nat
deriving DecidableEq, Repr

/-- The progress value published when the `found`-th page is added:
`Math.min(90, Math.round((pages.length / maxPages) * 90))`. -/
def crawlAddProgress (found maxPages : Nat) : Nat :=
  min 90 (jsRound (found * 90) maxPages)

/-- The per-page `onProgress` events of the crawl `requestHandler`:
the `k`-th found page (1-based) is announced with `crawlAddProgress`. -/
def crawlAddEvents (maxPages : Nat) : List DiscoveredPage → Nat → List ProgressEvent
  | [], _ => []
  | p :: ps, found =>
    { phase := "crawling"
      message := "Found page: " ++ (if p.title = "" then p.url else p.title)
      progress := crawlAddProgress (found + 1) maxPages }
      :: crawlAddEvents maxPages ps (found + 1)

/-- The full `onProgress` trace of `crawlPages`: a start event at 0, one
event per added page, and a closing event at 100. -/
def crawlPagesTrace (startUrl : String) (found : List DiscoveredPage)
    (maxPages : Nat) : List ProgressEvent :=
  { phase := "crawling", message := "Starting crawl of " ++ startUrl, progress := 0 }
    :: crawlAddEvents maxPages found 0
    ++ [{ phase := "crawling"
          message := "Crawl complete. Found " ++ toString found.length ++ " page(s)."
          progress := 100 }]

/-! ## Orchestrator progress (`orchestrator.ts`) -/

/-- The fallback reason string from `prompt-generator.ts`. -/
def fallbackMsg : String :=
  "✨ AI-powered prompts temporarily unavailable. Using simplified fix prompts instead."

/-- The single `testing` event `testPage` publishes after running the six
testers — with `progress: 0` (the source comments it "Will be adjusted
by caller"). -/
def testPageTrace (url title : String) : List ProgressEvent :=
  [{ phase := "testing"
     message := "Tested: " ++ (if title = "" then url else title)
     progress := 0 }]

/-- The events of the per-page testing loop of `runScanInner`: for page
`i` of `total` (0-based), a `testing` event at
`30 + Math.round(((i+1)/total) * 50)` followed by the `testPage` event. -/
def testingTrace (total : Nat) : List DiscoveredPage → Nat → List ProgressEvent
  | [], _ => []
  | p :: ps, i =>
    { phase := "testing"
      message := "Testing page " ++ toString (i + 1) ++ "/" ++ toString total
        ++ ": " ++ (if p.title = "" then p.url else p.title)
      progress := 30 + jsRound ((i + 1) * 50) total }
      :: testPageTrace p.url p.title
      ++ testingTrace total ps (i + 1)

/-- The full `progress` trace of `runScanInner`, as a function of the
crawl outcome (`found`, with `maxPages = 20` since the orchestrator
passes no options) and of whether the prompt generator reported a
fallback.  Crawl events are rescaled by
`Math.round(event.progress * 0.3)`. -/
def runScanTrace (url : String) (found : List DiscoveredPage)
    (usedFallback : Bool) : List ProgressEvent :=
  { phase := "crawling", message := "Starting page discovery...", progress := 0 }
    :: (crawlPagesTrace url found 20).map
        (fun e => { e with progress := jsRound (e.progress * 3) 10 })
    ++ [{ phase := "crawling"
          message := "Found " ++ toString found.length ++ " page(s)"
          progress := 30 }]
    ++ testingTrace found.length found 0
    ++ [{ phase := "prompts", message := "Generating fix prompts...", progress := 85 }]
    ++ (if usedFallback then [{ phase := "prompts", message := fallbackMsg, progress := 90 }] else [])
    ++ [{ phase := "report", message := "Building report...", progress := 95 }]
    ++ [{ phase := "complete", message := "Scan complete!", progress := 100 }]

/-! ## Broken-link checker (`testers/links.ts`) -/

/-- Outcome of one `page.request.fetch` call: a status, or a thrown
error with its message. -/
inductive FetchOutcome where
  | status (s : Nat)
  | failure (msg : String)
deriving DecidableEq, Repr

/-- `LinkResult` from `links.ts`. -/
inductive LinkResult where
  | ok
  | broken (detail : String)
  | uncertain (detail : String)
deriving DecidableEq, Repr

/-- Step 2 of `checkLink`: the GET fallback. -/
def checkLinkGet (get : FetchOutcome) : LinkResult :=
  match get with
  | .status s =>
    if s < 400 then .ok
    else if s = 404 || s = 410 then .broken ("Returned " ++ toString s)
    else .uncertain ("Returned " ++ toString s
      ++ " — may be access-restricted or temporarily unavailable")
  | .failure msg =>
    if strIncludes msg "ERR_NAME_NOT_RESOLVED" || strIncludes msg "ERR_CONNECTION_REFUSED" then
      .broken "Domain not found or connection refused"
    else
      .uncertain "Could not verify — site may be slow or temporarily unavailable"

/-- `checkLink` from `links.ts`: HEAD, then the GET fallback.  The two
`FetchOutcome`s model the results the two fetches would have. -/
def checkLink (head get : FetchOutcome) : LinkResult :=
  match head with
  | .status s =>
    if s < 400 then .ok
    else if s = 404 || s = 410 then .broken ("Returned " ++ toString s)
    else checkLinkGet get
  | .failure _ => checkLinkGet get

/-- The defect-emission step of the `testBrokenLinks` loop body
(lines 231–244): push a warning bug iff the verdict is `broken`. -/
def linkDefect (pageUrl href target : String) (result : LinkResult) : Option Bug :=
  match result with
  | .broken detail =>
    some { id := ""
           type := .brokenLink
           severity := .warning
           title := "Broken link: " ++ href
           details := target ++ " — " ++ detail
           page := pageUrl
           fixPrompt := "" }
  | .ok => none
  | .uncertain _ => none

/-! ## Prompt cache (`prompt-cache.ts`)

The in-memory `cache` object; the JSON file persistence and its I/O are
outside the model (claim C9 is about reads after writes within the same
process).  A JS object is an association list keyed by string with
insert-or-overwrite assignment. -/

/-- `CacheEntry` from `prompt-cache.ts`. -/
structure CacheEntry where
  prompt : String
  createdAt : String
deriving DecidableEq, Repr

/-- The in-memory `CacheData` object. -/
abbrev CacheData := List (String × CacheEntry)

/-- `getCachedPrompt`: `data[key]?.prompt`. -/
def getCachedPrompt (data : CacheData) (key : String) : Option String :=
  (List.lookup key data).map (fun e => e.prompt)

/-- `setCachedPrompt`: `data[key] = { prompt, createdAt: now }` — overwrite
in place when the key exists, append otherwise (JS object semantics);
`now` supplies `new Date().toISOString()`. -/
def setCachedPrompt (data : CacheData) (key prompt now : String) : CacheData :=
  if (List.lookup key data).isSome then
    data.map (fun kv => if kv.1 = key then (kv.1, ⟨prompt, now⟩) else kv)
  else
    data ++ [(key, ⟨prompt, now⟩)]

/-- `cacheKey` from `prompt-cache.ts`:
`` `${type}::${title}::${hash}` `` where `hash` is the first 12 hex chars
of SHA-256 of the details; `digest` supplies the external
`createHash('sha256')...digest('hex')`. -/
def cacheKey (digest : String → String) (type title details : String) : String :=
  type ++ "::" ++ title ++ "::" ++ sliceTo (digest details) 12

/-! ## Prompt generator (`prompt-generator.ts`) -/

/-- `getPagePath`: the URL pathname, with `/` shown as `home`; the raw
string on parse failure. -/
def getPagePath (url : String) : String :=
  match urlParse url with
  | some r => if r.pathname = "/" then "home" else r.pathname
  | none => url

/-- The `TEMPLATES` record from `prompt-generator.ts`, one deterministic
template per `BugType` (string-for-string from the source; `slice` and
`split('.')[0]` embedded on characters). -/
def templateFor (bug : Bug) : String :=
  match bug.type with
  | .consoleError =>
    "On the " ++ getPagePath bug.page ++ " page, there\x27s a JavaScript error: \""
      ++ sliceTo bug.details 150 ++ "\". "
      ++ "Please investigate and fix this error. It\x27s likely caused by accessing data before it\x27s loaded — "
      ++ "add proper null/undefined checks and show a loading state while data is being fetched."
  | .networkError =>
    "On the " ++ getPagePath bug.page ++ " page, a network request is failing: \""
      ++ bug.title ++ "\". "
      ++ "Check that the requested resource exists and is accessible (correct URL, server is running, no CORS or auth issues). "
      ++ "Add error handling so the user sees a helpful message if the request fails."
  | .brokenLink =>
    "On the " ++ getPagePath bug.page ++ " page, there\x27s a broken link: \""
      ++ bug.title ++ "\". "
      ++ "Please fix the link destination — either update the href to the correct URL or remove the link if the target page no longer exists."
  | .brokenImage =>
    "On the " ++ getPagePath bug.page ++ " page, an image is failing to load: \""
      ++ bug.details ++ "\". "
      ++ "Check that the image file exists at the specified path and the URL is correct. If the image was recently moved or deleted, update the src attribute to point to the right location."
  | .accessibility =>
    "On the " ++ getPagePath bug.page ++ " page, there\x27s an accessibility issue: \""
      ++ bug.title ++ "\". "
      ++ ⟨bug.details.data.takeWhile (fun c => c != '.')⟩
      ++ ". Please fix this to improve accessibility for all users."
  | .responsive =>
    "The " ++ getPagePath bug.page ++ " page has layout issues on mobile/tablet: \""
      ++ bug.title ++ "\". "
      ++ "Please check for elements with fixed widths and make them responsive. "
      ++ "Use responsive Tailwind classes (e.g., w-full, max-w-full, grid-cols-1 on mobile, grid-cols-3 on desktop) "
      ++ "to prevent horizontal overflow."

/-- `generateTemplatePrompts`: map each bug to a copy with the template
prompt filled in (the TS `template ? ... :` default branch is
unreachable because `TEMPLATES` is total over the closed `BugType`). -/
def generateTemplatePrompts (bugs : List Bug) : List Bug :=
  bugs.map (fun bug => { bug with fixPrompt := templateFor bug })

/-- `PromptGenerationResult` from `prompt-generator.ts`. -/
structure PromptGenerationResult where
  bugs : List Bug
  usedFallback : Bool
  fallbackReason : Option String
  cacheHits : Nat
  cacheMisses : Nat
deriving DecidableEq, Repr

/-- The environment of `generateFixPrompts`: the SHA-256 hex digest, the
prompt-cache read state, `process.env.ANTHROPIC_API_KEY`, whether the
Claude call throws, and — per page batch — the JSON string array
extracted from the response (`none` models an unparseable or missing
array).  Cache writes do not feed back into the returned bugs and are
not threaded here. -/
structure GenEnv where
  digest : String → String
  cache : String → Option String
  apiKey : Option String
  apiThrows : Bool
  apiResponse : String → List Bug → Option (List String)

/-- Models JS `undefined` read out of a `Bug[]` (unreachable on the paths
the theorems cover). -/
def undefinedBug : Bug :=
  { id := "", type := .consoleError, severity := .critical
    title := "", details := "", page := "", fixPrompt := "" }

/-- Fill prompts into a page batch from the parsed array:
`prompts[i] || generateTemplatePrompts([pageBugs[i]])[0].fixPrompt`
(a missing or empty entry falls back to the template). -/
def applyPrompts : List Bug → List String → List Bug
  | [], _ => []
  | bug :: rest, [] =>
    { bug with fixPrompt := templateFor bug } :: applyPrompts rest []
  | bug :: rest, p :: ps =>
    { bug with fixPrompt := if p = "" then templateFor bug else p } :: applyPrompts rest ps

/-- Key order of a JS `Map` built by insert-if-absent: first-occurrence
order. -/
def firstKeys : List String → List String
  | [] => []
  | x :: xs => x :: (firstKeys xs).filter (fun y => y ≠ x)

/-- `generateWithApi` (successful call): group the bugs by page in a
`Map` (first-occurrence key order), and per batch fill prompts from the
extracted array or fall back to templates for that batch. -/
def generateWithApi (env : GenEnv) (bugs : List Bug) : List Bug :=
  (firstKeys (bugs.map (fun b => b.page))).flatMap (fun pg =>
    let pageBugs := bugs.filter (fun b => b.page = pg)
    match env.apiResponse pg pageBugs with
    | some prompts => applyPrompts pageBugs prompts
    | none => generateTemplatePrompts pageBugs)

/-- `mergeResults` from `prompt-generator.ts`: walk the original order;
take the cached bug where there is one, else consume the next newly
generated bug (`newBugs[newIndex++]`; running past the end would be JS
`undefined`). -/
def mergeResults : List (Option Bug) → List Bug → List Bug
  | [], _ => []
  | some b :: cs, news => b :: mergeResults cs news
  | none :: cs, [] => undefinedBug :: mergeResults cs []
  | none :: cs, n :: news => n :: mergeResults cs news

/-- The cache-lookup step of `generateFixPrompts`: a non-empty cached
prompt (JS truthiness) yields a filled copy, anything else `null`. -/
def cacheLookup (env : GenEnv) (bug : Bug) : Option Bug :=
  match env.cache (cacheKey env.digest bug.type.str bug.title bug.details) with
  | some s => if s = "" then none else some { bug with fixPrompt := s }
  | none => none

/-- `generateFixPrompts` from `prompt-generator.ts`: cache tier, then
Claude tier (grouped per page), then template tier; see `GenEnv` for the
externals.  The write-through `setCachedPrompt` calls do not affect the
returned value and are not modelled here (the cache itself is verified
separately). -/
def generateFixPrompts (env : GenEnv) (bugs : List Bug) : PromptGenerationResult :=
  if bugs.isEmpty then
    { bugs := bugs, usedFallback := false, fallbackReason := none
      cacheHits := 0, cacheMisses := 0 }
  else
    let cachedBugs : List (Option Bug) := bugs.map (cacheLookup env)
    let cacheHits := (cachedBugs.filter (fun c => c.isSome)).length
    let uncachedBugs := (bugs.zip cachedBugs).filterMap
      (fun bc => if bc.2.isNone then some bc.1 else none)
    if uncachedBugs.isEmpty then
      { bugs := cachedBugs.map (fun c => c.getD undefinedBug)
        usedFallback := false, fallbackReason := none
        cacheHits := cacheHits, cacheMisses := 0 }
    else
      match env.apiKey with
      | none =>
        let templateBugs := generateTemplatePrompts uncachedBugs
        { bugs := mergeResults cachedBugs templateBugs
          usedFallback := true, fallbackReason := some fallbackMsg
          cacheHits := cacheHits, cacheMisses := uncachedBugs.length }
      | some _ =>
        if env.apiThrows then
          let templateBugs := generateTemplatePrompts uncachedBugs
          { bugs := mergeResults cachedBugs templateBugs
            usedFallback := true, fallbackReason := some fallbackMsg
            cacheHits := cacheHits, cacheMisses := uncachedBugs.length }
        else
          let aiBugs := generateWithApi env uncachedBugs
          { bugs := mergeResults cachedBugs aiBugs
            usedFallback := false, fallbackReason := none
            cacheHits := cacheHits, cacheMisses := uncachedBugs.length }

/-! ## Specification-side notions used by the claim statements -/

/-- Spec-side: a list of progress values is monotonically
non-decreasing. -/
def nonDecreasing : List Nat → Bool
  | [] => true
  | [_] => true
  | a :: b :: rest => a ≤ b && nonDecreasing (b :: rest)

/-- Spec-side: two bugs agree on every field except possibly
`fixPrompt`. -/
def sameExceptFixPrompt (a b : Bug) : Prop :=
  a.id = b.id ∧ a.type = b.type ∧ a.severity = b.severity ∧ a.title = b.title
    ∧ a.details = b.details ∧ a.page = b.page

/-- Spec-side: the defect list is grouped by page — it is a concatenation
of blocks, each block constant in `page`, with pairwise-distinct block
pages.  Every list the orchestrator passes to `generateFixPrompts`
(a `flatMap` over per-page reports) has this shape. -/
def PageChunked (l : List Bug) : Prop :=
  ∃ chunks : List (String × List Bug),
    l = (chunks.map (fun c => c.2)).flatten
      ∧ (chunks.map (fun c => c.1)).Nodup
      ∧ ∀ c ∈ chunks, c.2 ≠ [] ∧ ∀ b ∈ c.2, b.page = c.1

/-- Spec-side: total of the per-type counters. -/
def sumByType (m : List (BugType × Nat)) : Nat := (m.map (fun kv => kv.2)).sum

/-- Spec-side: HEAD outcomes after which the check proceeds to the GET
fallback (status ≥ 400 other than exactly 404/410, or a thrown fetch). -/
def headFallsThrough : FetchOutcome → Prop
  | .status s => 400 ≤ s ∧ s ≠ 404 ∧ s ≠ 410
  | .failure _ => True

/-- Spec-side: HEAD outcomes the claim calls BROKEN directly: status
exactly 404 or 410. -/
def headBrokenOutcome : FetchOutcome → Prop
  | .status s => s = 404 ∨ s = 410
  | .failure _ => False

/-- Spec-side: GET outcomes the claim calls BROKEN: status exactly
404/410, or a connection error whose message contains
`ERR_NAME_NOT_RESOLVED` or `ERR_CONNECTION_REFUSED`. -/
def getBrokenOutcome : FetchOutcome → Prop
  | .status s => s = 404 ∨ s = 410
  | .failure msg =>
    strIncludes msg "ERR_NAME_NOT_RESOLVED" = true
      ∨ strIncludes msg "ERR_CONNECTION_REFUSED" = true

/-- Spec-side: is the link verdict BROKEN? -/
def LinkResult.isBroken : LinkResult → Bool
  | .broken _ => true
  | _ => false

/-- Spec-side: is the link verdict UNCERTAIN? -/
def LinkResult.isUncertain : LinkResult → Bool
  | .uncertain _ => true
  | _ => false

/-- Spec-side: the string ends with two slashes (the shape on which
trailing-slash stripping is not idempotent). -/
def endsDoubleSlash (s : String) : Bool :=
  endsSlash s && endsSlash (dropLastChar s)

/-- Invariants of a record produced by `urlParse` (ignoring `hash`),
used to re-parse its serialization. -/
def URLWf (r : URLRec) : Prop :=
  (r.scheme = "https" ∨ r.scheme = "http")
    ∧ r.host.data ≠ []
    ∧ (∀ c ∈ r.host.data, isHostEnd c = false ∧ c ≠ '#' ∧ c.toLower = c)
    ∧ r.pathname.data ≠ []
    ∧ (r.pathname.data.head? = some '/' ∨ r.pathname.data.head? = some '\\')
    ∧ (∀ c ∈ r.pathname.data, c ≠ '?' ∧ c ≠ '#')
    ∧ (r.search.data = [] ∨ r.search.data.head? = some '?')
    ∧ (∀ c ∈ r.search.data, c ≠ '#')

/-- Concrete environment for the `generateFixPrompts` witness: no API
key, empty cache (the template-fallback path). -/
def envW : GenEnv :=
  { digest := fun _ => "0123456789abcdef", cache := fun _ => none
    apiKey := none, apiThrows := false, apiResponse := fun _ _ => none }

/-- Concrete single-page input for the `generateFixPrompts` witness. -/
def bugsW : List Bug :=
  [{ id := "b1", type := .consoleError, severity := .critical
     title := "Uncaught exception", details := "boom"
     page := "https://s.example/a", fixPrompt := "" },
   { id := "b2", type := .brokenLink, severity := .warning
     title := "Broken link: /x", details := "404"
     page := "https://s.example/a", fixPrompt := "" }]

/-- Concrete environment for the `generateFixPrompts` counterexample:
API key present, call succeeds, each page batch gets prompts
`["p1", "p2"]`, cache empty. -/
def envEx : GenEnv :=
  { digest := fun _ => "0123456789abcdef", cache := fun _ => none
    apiKey := some "k", apiThrows := false
    apiResponse := fun _ _ => some ["p1", "p2"] }

/-- Interleaved-page input for the counterexample: pages a, b, a. -/
def bugsEx : List Bug :=
  [{ id := "1", type := .consoleError, severity := .critical
     title := "t1", details := "d1", page := "https://s.example/a", fixPrompt := "" },
   { id := "2", type := .consoleError, severity := .critical
     title := "t2", details := "d2", page := "https://s.example/b", fixPrompt := "" },
   { id := "3", type := .consoleError, severity := .critical
     title := "t3", details := "d3", page := "https://s.example/a", fixPrompt := "" }]

/-! ## Helper lemmas -/

theorem takeWhile_append_of_all {p : Char → Bool} {l : List Char} (m : List Char)
    (h : ∀ c ∈ l, p c = true) : (l ++ m).takeWhile p = l ++ m.takeWhile p := by
  induction l with
  | nil => simp
  | cons c cs ih =>
    simp only [List.cons_append, List.takeWhile_cons, h c (by simp), if_true]
    rw [ih (fun d hd => h d (by simp [hd]))]

theorem dropWhile_append_of_all {p : Char → Bool} {l : List Char} (m : List Char)
    (h : ∀ c ∈ l, p c = true) : (l ++ m).dropWhile p = m.dropWhile p := by
  induction l with
  | nil => simp
  | cons c cs ih =>
    simp only [List.cons_append, List.dropWhile_cons, h c (by simp), if_true]
    exact ih (fun d hd => h d (by simp [hd]))

theorem lookup_set_same (data : CacheData) (key : String) (e : CacheEntry)
    (h : (List.lookup key data).isSome = true) :
    List.lookup key (data.map (fun kv => if kv.1 = key then (kv.1, e) else kv)) = some e := by
  induction data with
  | nil => simp at h
  | cons kv rest ih =>
    obtain ⟨k, v⟩ := kv
    by_cases hk : k = key
    · subst hk
      simp [List.lookup_cons]
    · rw [List.lookup_cons] at h
      have hbeq : (key == k) = false := by
        simp only [beq_eq_false_iff_ne, ne_eq]
        exact fun hkk => hk hkk.symm
      rw [hbeq] at h
      simp only [List.map_cons, if_neg hk, List.lookup_cons, hbeq]
      exact ih h

theorem lookup_append_new (data : CacheData) (key : String) (e : CacheEntry) :
    List.lookup key (data ++ [(key, e)]) = some e ∨
      (List.lookup key data).isSome = true := by
  induction data with
  | nil => left; simp [List.lookup_cons]
  | cons kv rest ih =>
    obtain ⟨k, v⟩ := kv
    by_cases hk : key = k
    · right; simp [List.lookup_cons, hk]
    · have hbeq : (key == k) = false := by simp [hk]
      rcases ih with h | h
      · left; simp [List.lookup_cons, hbeq, h]
      · right; simp [List.lookup_cons, hbeq, h]

theorem getCachedPrompt_set (data : CacheData) (key prompt now : String) :
    getCachedPrompt (setCachedPrompt data key prompt now) key = some prompt := by
  unfold getCachedPrompt setCachedPrompt
  by_cases h : (List.lookup key data).isSome = true
  · rw [if_pos h, lookup_set_same data key ⟨prompt, now⟩ h]
    rfl
  · rw [if_neg h]
    rcases lookup_append_new data key ⟨prompt, now⟩ with h2 | h2
    · rw [h2]; rfl
    · exact absurd h2 h

/-! ## Claim theorems -/

/-- C9: for every cache state, writing hint `H` under key `K` with
`setCachedPrompt` and then reading `K` with `getCachedPrompt` in the
same process returns `H`, and when `K` is written twice the last write
wins. -/
theorem C9_cache_write_then_read (data : CacheData) (key h1 now1 h2 now2 : String) :
    getCachedPrompt (setCachedPrompt data key h1 now1) key = some h1
    ∧ getCachedPrompt
        (setCachedPrompt (setCachedPrompt data key h1 now1) key h2 now2) key = some h2 :=
  ⟨getCachedPrompt_set data key h1 now1,
   getCachedPrompt_set (setCachedPrompt data key h1 now1) key h2 now2⟩

/-- C10: `normalizeUrl` is total — on any string the URL constructor
rejects (modelled by `urlParse` returning `none`), the `catch` branch
returns the input unchanged instead of throwing. -/
theorem C10_normalizeUrl_total_on_parse_failure (u : String)
    (h : urlParse u = none) : normalizeUrl u = u := by
  unfold normalizeUrl
  rw [h]

/-- Witness for C10 at a concrete unparseable input. -/
theorem C10_witness :
    urlParse "not a url" = none ∧ normalizeUrl "not a url" = "not a url" :=
  ⟨by decide, C10_normalizeUrl_total_on_parse_failure "not a url" (by decide)⟩

theorem checkLinkGet_broken_iff (get : FetchOutcome) :
    (checkLinkGet get).isBroken = true ↔ getBrokenOutcome get := by
  rcases get with s | msg
  · by_cases hlt : s < 400
    · simp [checkLinkGet, hlt, getBrokenOutcome, LinkResult.isBroken]
      omega
    · by_cases h4 : s = 404 || s = 410
      · simp only [checkLinkGet, if_neg hlt, h4, if_true]
        simp only [Bool.or_eq_true, decide_eq_true_eq] at h4
        simp [getBrokenOutcome, LinkResult.isBroken, h4]
      · simp only [checkLinkGet, if_neg hlt, h4, Bool.false_eq_true, if_false]
        simp only [Bool.or_eq_true, decide_eq_true_eq, not_or] at h4
        simp [getBrokenOutcome, LinkResult.isBroken, h4]
  · by_cases hm : strIncludes msg "ERR_NAME_NOT_RESOLVED" || strIncludes msg "ERR_CONNECTION_REFUSED"
    · simp only [checkLinkGet, hm, if_true]
      simp only [Bool.or_eq_true] at hm
      simp [getBrokenOutcome, LinkResult.isBroken, hm]
    · simp only [checkLinkGet, hm, Bool.false_eq_true, if_false]
      simp only [Bool.or_eq_true, not_or] at hm
      simp [getBrokenOutcome, LinkResult.isBroken, hm.1, hm.2]

theorem checkLinkGet_uncertain_iff (get : FetchOutcome) :
    (checkLinkGet get).isUncertain = true
      ↔ ¬ getBrokenOutcome get
        ∧ (match get with | .status s => 400 ≤ s | .failure _ => True) := by
  rcases get with s | msg
  · by_cases hlt : s < 400
    · simp only [checkLinkGet, hlt, if_true, LinkResult.isUncertain, getBrokenOutcome]
      constructor
      · intro h; exact absurd h (by simp)
      · rintro ⟨_, h⟩; omega
    · by_cases h4 : s = 404 || s = 410
      · simp only [checkLinkGet, if_neg hlt, h4, if_true]
        simp only [Bool.or_eq_true, decide_eq_true_eq] at h4
        simp [getBrokenOutcome, LinkResult.isUncertain, h4]
      · simp only [checkLinkGet, if_neg hlt, h4, Bool.false_eq_true, if_false]
        simp only [Bool.or_eq_true, decide_eq_true_eq, not_or] at h4
        simp [getBrokenOutcome, LinkResult.isUncertain, h4]
        omega
  · by_cases hm : strIncludes msg "ERR_NAME_NOT_RESOLVED" || strIncludes msg "ERR_CONNECTION_REFUSED"
    · simp only [checkLinkGet, hm, if_true]
      simp only [Bool.or_eq_true] at hm
      simp [getBrokenOutcome, LinkResult.isUncertain, hm]
    · simp only [checkLinkGet, hm, Bool.false_eq_true, if_false]
      simp only [Bool.or_eq_true, not_or] at hm
      simp [getBrokenOutcome, LinkResult.isUncertain, hm.1, hm.2]

/-- C5: for every checked link target, the broken-link tester emits a
defect iff the HEAD-then-GET check yields BROKEN — HEAD status exactly
404/410, or (after HEAD falls through) GET status exactly 404/410 or a
connection error mentioning `ERR_NAME_NOT_RESOLVED` /
`ERR_CONNECTION_REFUSED`; any other status ≥ 400 after the GET fallback
and any other error yield UNCERTAIN, which produces no defect. -/
theorem C5_link_defect_iff_broken (head get : FetchOutcome)
    (pageUrl href target : String) :
    ((linkDefect pageUrl href target (checkLink head get)).isSome = true
      ↔ (checkLink head get).isBroken = true)
    ∧ ((checkLink head get).isBroken = true
      ↔ headBrokenOutcome head ∨ (headFallsThrough head ∧ getBrokenOutcome get))
    ∧ ((checkLink head get).isUncertain = true
      ↔ headFallsThrough head ∧ ¬ getBrokenOutcome get
        ∧ (match get with | .status s => 400 ≤ s | .failure _ => True)) := by
  refine ⟨?_, ?_, ?_⟩
  · cases h : checkLink head get <;> simp [linkDefect, LinkResult.isBroken]
  · rcases head with s | msg
    · by_cases hlt : s < 400
      · simp [checkLink, hlt, headBrokenOutcome, headFallsThrough, LinkResult.isBroken]
        omega
      · by_cases h4 : s = 404 || s = 410
        · simp only [checkLink, if_neg hlt, h4, if_true]
          simp only [Bool.or_eq_true, decide_eq_true_eq] at h4
          simp [headBrokenOutcome, LinkResult.isBroken, h4]
        · simp only [checkLink, if_neg hlt, h4, Bool.false_eq_true, if_false]
          simp only [Bool.or_eq_true, decide_eq_true_eq, not_or] at h4
          rw [checkLinkGet_broken_iff]
          simp [headBrokenOutcome, headFallsThrough, h4]
          omega
    · simp only [checkLink]
      rw [checkLinkGet_broken_iff]
      simp [headBrokenOutcome, headFallsThrough]
  · rcases head with s | msg
    · by_cases hlt : s < 400
      · simp only [checkLink, hlt, if_true, LinkResult.isUncertain, headFallsThrough,
          Bool.false_eq_true, false_iff, not_and]
        intro h; omega
      · by_cases h4 : s = 404 || s = 410
        · simp only [checkLink, if_neg hlt, h4, if_true]
          simp only [Bool.or_eq_true, decide_eq_true_eq] at h4
          simp only [LinkResult.isUncertain, headFallsThrough, Bool.false_eq_true,
            false_iff, not_and]
          intro h
          rcases h4 with h4 | h4 <;> omega
        · simp only [checkLink, if_neg hlt, h4, Bool.false_eq_true, if_false]
          simp only [Bool.or_eq_true, decide_eq_true_eq, not_or] at h4
          rw [checkLinkGet_uncertain_iff]
          simp only [headFallsThrough]
          constructor
          · rintro ⟨h1, h2⟩
            exact ⟨⟨by omega, h4.1, h4.2⟩, h1, h2⟩
          · rintro ⟨_, h1, h2⟩
            exact ⟨h1, h2⟩
    · simp only [checkLink]
      rw [checkLinkGet_uncertain_iff]
      simp [headFallsThrough]

/-- C3 (code evaluation): for a scan that discovers one page, the
published progress sequence is `[0, 0, 2, 30, 30, 80, 0, 85, 90, 95,
100]` — the `testing` event `testPage` publishes carries `progress: 0`
(its "Will be adjusted by caller" comment notwithstanding, the
orchestrator forwards it unchanged), so the sequence drops from 80 back
to 0 and is not monotonically non-decreasing.  (The `100` part of the
claim does hold: exactly one event carries 100, at the very end.) -/
theorem C3_progress_drops_to_zero_mid_scan :
    (runScanTrace "https://site" [⟨"https://site", "Home", 100⟩] true).map
        (fun e => e.progress) = [0, 0, 2, 30, 30, 80, 0, 85, 90, 95, 100]
    ∧ nonDecreasing ((runScanTrace "https://site" [⟨"https://site", "Home", 100⟩] true).map
        (fun e => e.progress)) = false
    ∧ (((runScanTrace "https://site" [⟨"https://site", "Home", 100⟩] true).map
        (fun e => e.progress)).filter (fun p => p = 100)).length = 1 := by
  refine ⟨by decide, by decide, by decide⟩

theorem char_toNat_ofNat (n : Nat) (h : n.isValidChar) : (Char.ofNat n).toNat = n := by
  unfold Char.ofNat
  rw [dif_pos h]
  rfl

theorem char_toLower_fix (c : Char) (h : ¬(65 ≤ c.toNat ∧ c.toNat ≤ 90)) :
    c.toLower = c := by
  unfold Char.toLower
  rw [if_neg h]

theorem char_toLower_shift (c : Char) (h : 65 ≤ c.toNat ∧ c.toNat ≤ 90) :
    c.toLower.toNat = c.toNat + 32 := by
  unfold Char.toLower
  rw [if_pos h]
  exact char_toNat_ofNat _ (Or.inl (by omega))

theorem char_toLower_props (c : Char) (h1 : isHostEnd c = false) (h2 : c ≠ '#') :
    isHostEnd c.toLower = false ∧ c.toLower ≠ '#' ∧ c.toLower.toLower = c.toLower := by
  by_cases hr : 65 ≤ c.toNat ∧ c.toNat ≤ 90
  · have hsh := char_toLower_shift c hr
    have hne : ∀ d : Char, c.toLower.toNat ≠ d.toNat → c.toLower ≠ d := by
      intro d hd heq
      exact hd (by rw [heq])
    have hslash : c.toLower ≠ '/' := hne '/' (by rw [hsh]; show _ ≠ 47; omega)
    have hq : c.toLower ≠ '?' := hne '?' (by rw [hsh]; show _ ≠ 63; omega)
    have hbs : c.toLower ≠ '\\' := hne '\\' (by rw [hsh]; show _ ≠ 92; omega)
    have hhash : c.toLower ≠ '#' := hne '#' (by rw [hsh]; show _ ≠ 35; omega)
    refine ⟨?_, hhash, ?_⟩
    · unfold isHostEnd
      simp [hslash, hq, hbs]
    · exact char_toLower_fix _ (by omega)
  · rw [char_toLower_fix c hr]
    exact ⟨h1, h2, char_toLower_fix c hr⟩

theorem dropWhile_head_false {p : Char → Bool} {l : List Char} {c : Char} {cs : List Char}
    (h : l.dropWhile p = c :: cs) : p c = false := by
  induction l with
  | nil => simp at h
  | cons a t ih =>
    rw [List.dropWhile_cons] at h
    by_cases hp : p a = true
    · rw [if_pos hp] at h
      exact ih h
    · rw [if_neg hp] at h
      cases h
      simpa using hp

theorem takeWhile_head {p : Char → Bool} {l : List Char} {c : Char} {cs : List Char}
    (h : l.takeWhile p = c :: cs) : l.head? = some c ∧ p c = true := by
  cases l with
  | nil => simp at h
  | cons a t =>
    rw [List.takeWhile_cons] at h
    by_cases hp : p a = true
    · rw [if_pos hp] at h
      obtain ⟨rfl, -⟩ := List.cons.inj h
      exact ⟨rfl, hp⟩
    · rw [if_neg hp] at h
      cases h

theorem strMk_data (s : String) : String.mk s.data = s := by
  cases s
  rfl

theorem normalizeUrl_eq_stripOnce (u : String) (r : URLRec) (h : urlParse u = some r) :
    normalizeUrl u =
      (if endsSlash (URLRec.toStr { r with hash := "" })
       then dropLastChar (URLRec.toStr { r with hash := "" })
       else URLRec.toStr { r with hash := "" }) := by
  unfold normalizeUrl
  rw [h]
  by_cases hp : r.pathname = "/"
  · have h1 : (r.pathname != "/") = false := by rw [hp]; rfl
    have h2 : (r.pathname == "/") = true := by rw [hp]; rfl
    simp only [h1, h2, Bool.and_false, Bool.true_and, Bool.false_eq_true, if_false]
  · have h1 : (r.pathname != "/") = true := by simp [hp]
    have h2 : (r.pathname == "/") = false := by simp [hp]
    simp only [h1, h2, Bool.and_true, Bool.false_and, Bool.false_eq_true, if_false]

theorem parseAfterScheme_wf {scheme : String} {rest : List Char} {r : URLRec}
    (hs : scheme = "https" ∨ scheme = "http")
    (h : parseAfterScheme scheme rest = some r) : URLWf r := by
  unfold parseAfterScheme at h
  dsimp only at h
  generalize hAS : rest.dropWhile (fun c => c == '/' || c == '\\') = afterSlashes at h
  generalize hCore : afterSlashes.takeWhile (fun c => c != '#') = core at h
  generalize hHash : afterSlashes.dropWhile (fun c => c != '#') = hashPart at h
  generalize hAuth : core.takeWhile (fun c => !isHostEnd c) = auth at h
  generalize hTl : core.dropWhile (fun c => !isHostEnd c) = tl at h
  generalize hPath : tl.takeWhile (fun c => c != '?') = path at h
  generalize hQuery : tl.dropWhile (fun c => c != '?') = query at h
  by_cases hA : auth.isEmpty
  · rw [if_pos hA] at h
    exact absurd h (by simp)
  · rw [if_neg hA] at h
    have hr := Option.some.inj h
    have hAuthNe : auth ≠ [] := by
      intro hnil
      rw [hnil] at hA
      exact hA rfl
    have hCoreChars : ∀ a ∈ core, a ≠ '#' := by
      intro a ha
      have ha2 : a ∈ List.takeWhile (fun c => c != '#') afterSlashes := by
        rw [hCore]; exact ha
      have := List.mem_takeWhile_imp ha2
      simpa using this
    have hAuthChars : ∀ a ∈ auth, isHostEnd a = false ∧ a ≠ '#' := by
      intro a ha
      have ha2 : a ∈ List.takeWhile (fun c => !isHostEnd c) core := by
        rw [hAuth]; exact ha
      have h1 := List.mem_takeWhile_imp (p := fun c => !isHostEnd c) (l := core) ha2
      have h1 : isHostEnd a = false := by simpa [Bool.not_eq_true'] using h1
      exact ⟨h1, hCoreChars a (by rw [← hAuth] at ha; exact List.takeWhile_subset _ ha)⟩
    have hTlChars : ∀ a ∈ tl, a ≠ '#' := by
      intro a ha
      exact hCoreChars a (by rw [← hTl] at ha; exact List.dropWhile_subset _ ha)
    rw [← hr]
    unfold URLWf
    refine ⟨hs, ?_, ?_, ?_, ?_, ?_, ?_, ?_⟩
    · show (String.mk (auth.map Char.toLower)).data ≠ []
      simpa using hAuthNe
    · show ∀ c ∈ (String.mk (auth.map Char.toLower)).data, _
      intro c hc
      simp only [List.mem_map] at hc
      obtain ⟨a, ha, rfl⟩ := hc
      obtain ⟨h1, h2⟩ := hAuthChars a ha
      exact char_toLower_props a h1 h2
    · show (if path.isEmpty then "/" else String.mk path).data ≠ []
      by_cases hP : path.isEmpty
      · rw [if_pos hP]
        decide
      · rw [if_neg hP]
        show path ≠ []
        intro hnil
        rw [hnil] at hP
        exact hP rfl
    · show (if path.isEmpty then "/" else String.mk path).data.head? = some '/'
        ∨ (if path.isEmpty then "/" else String.mk path).data.head? = some '\\'
      by_cases hP : path.isEmpty
      · rw [if_pos hP]
        left
        rfl
      · rw [if_neg hP]
        have hpne : path ≠ [] := by
          intro hnil
          rw [hnil] at hP
          exact hP rfl
        obtain ⟨c, cs, hcc⟩ := List.exists_cons_of_ne_nil hpne
        have hth := takeWhile_head (p := fun c => c != '?') (l := tl) (by rw [hPath, hcc])
        obtain ⟨hhd, hpq⟩ := hth
        obtain ⟨d, ds, hdd⟩ : ∃ d ds, tl = d :: ds := by
          cases htl : tl with
          | nil => rw [htl] at hhd; simp at hhd
          | cons d ds => exact ⟨d, ds, rfl⟩
        rw [hdd] at hhd
        simp only [List.head?_cons, Option.some.injEq] at hhd
        have hhe : (!isHostEnd d) = false :=
          dropWhile_head_false (p := fun c => !isHostEnd c) (l := core) (by rw [hTl, hdd])
        have hie : isHostEnd d = true := by simpa using hhe
        have hcq : c ≠ '?' := by simpa using hpq
        rw [hhd] at hie
        unfold isHostEnd at hie
        simp only [Bool.or_eq_true, beq_iff_eq] at hie
        show (String.mk path).data.head? = some '/' ∨ (String.mk path).data.head? = some '\\'
        rcases hie with (hie | hie) | hie
        · left
          rw [hcc, hie]
          rfl
        · exact absurd hie hcq
        · right
          rw [hcc, hie]
          rfl
    · show ∀ c ∈ (if path.isEmpty then "/" else String.mk path).data, c ≠ '?' ∧ c ≠ '#'
      by_cases hP : path.isEmpty
      · rw [if_pos hP]
        decide
      · rw [if_neg hP]
        intro c hc
        show c ≠ '?' ∧ c ≠ '#'
        have hc2 : c ∈ List.takeWhile (fun c => c != '?') tl := by
          rw [hPath]; exact hc
        refine ⟨by simpa using List.mem_takeWhile_imp hc2, ?_⟩
        refine hTlChars c ?_
        rw [← hPath] at hc
        exact List.takeWhile_subset _ hc
    · show (String.mk query).data = [] ∨ (String.mk query).data.head? = some '?'
      cases hq : query with
      | nil => exact Or.inl rfl
      | cons c cs =>
        right
        have := dropWhile_head_false (p := fun c => c != '?') (l := tl) (by rw [hQuery, hq])
        simp only [bne_eq_false_iff_eq] at this
        show (c :: cs).head? = some '?'
        simp [this]
    · show ∀ c ∈ (String.mk query).data, c ≠ '#'
      intro c hc
      refine hTlChars c ?_
      rw [← hQuery] at hc
      exact List.dropWhile_subset _ hc


theorem urlParse_wf {u : String} {r : URLRec} (h : urlParse u = some r) : URLWf r := by
  unfold urlParse at h
  cases h1 : dropSchemeCI "https:".data u.data with
  | some rest =>
    rw [h1] at h
    exact parseAfterScheme_wf (Or.inl rfl) h
  | none =>
    rw [h1] at h
    cases h2 : dropSchemeCI "http:".data u.data with
    | some rest =>
      rw [h2] at h
      exact parseAfterScheme_wf (Or.inr rfl) h
    | none =>
      rw [h2] at h
      exact absurd h (by simp)

theorem dropSchemeCI_https (rest : List Char) :
    dropSchemeCI "https:".data ('h' :: 't' :: 't' :: 'p' :: 's' :: ':' :: rest) = some rest := rfl

theorem dropSchemeCI_https_on_http (rest : List Char) :
    dropSchemeCI "https:".data ('h' :: 't' :: 't' :: 'p' :: ':' :: rest) = none := rfl

theorem dropSchemeCI_http (rest : List Char) :
    dropSchemeCI "http:".data ('h' :: 't' :: 't' :: 'p' :: ':' :: rest) = some rest := rfl

theorem parseAfterScheme_reassemble (scheme : String) (host path search : List Char)
    (hhostne : host ≠ [])
    (hhostc : ∀ c ∈ host, isHostEnd c = false ∧ c ≠ '#' ∧ c.toLower = c)
    (hpathne : path ≠ [])
    (hpathhd : path.head? = some '/' ∨ path.head? = some '\\')
    (hpathc : ∀ c ∈ path, c ≠ '?' ∧ c ≠ '#')
    (hsearch : search = [] ∨ search.head? = some '?')
    (hsearchc : ∀ c ∈ search, c ≠ '#') :
    parseAfterScheme scheme (host ++ path ++ search)
      = some ⟨scheme, ⟨host⟩, ⟨path⟩, ⟨search⟩, ""⟩ := by
  obtain ⟨c0, host', rfl⟩ := List.exists_cons_of_ne_nil hhostne
  obtain ⟨p0, path', rfl⟩ := List.exists_cons_of_ne_nil hpathne
  have hp0 : isHostEnd p0 = true := by
    rcases hpathhd with hd | hd <;>
      · simp only [List.head?_cons, Option.some.injEq] at hd
        subst hd
        rfl
  have hc0 := hhostc c0 (by simp)
  have hall : ∀ c ∈ (c0 :: host') ++ (p0 :: path') ++ search, (c != '#') = true := by
    intro c hc
    simp only [List.mem_append, List.mem_cons] at hc
    rcases hc with (hc | hc) | hc
    · rcases hc with rfl | hc
      · simpa using hc0.2.1
      · simpa using (hhostc c (by simp [hc])).2.1
    · rcases hc with rfl | hc
      · simpa using (hpathc c (by simp)).2
      · simpa using (hpathc c (by simp [hc])).2
    · simpa using hsearchc c hc
  unfold parseAfterScheme
  dsimp only
  have hAS : ((c0 :: host') ++ (p0 :: path') ++ search).dropWhile
      (fun c => c == '/' || c == '\\') = (c0 :: host') ++ (p0 :: path') ++ search := by
    show ((c0 :: (host' ++ (p0 :: path') ++ search)).dropWhile _) = _
    rw [List.dropWhile_cons]
    have hc0or : (c0 == '/' || c0 == '\\') = false := by
      have h1 := hc0.1
      unfold isHostEnd at h1
      rcases Bool.or_eq_false_iff.mp h1 with ⟨h2, h3⟩
      rcases Bool.or_eq_false_iff.mp h2 with ⟨h4, -⟩
      simp [h4, h3]
    rw [hc0or]
    simp
  rw [hAS]
  rw [List.takeWhile_eq_self_iff.mpr hall, List.dropWhile_eq_nil_iff.mpr hall]
  have hassoc : (c0 :: host') ++ (p0 :: path') ++ search
      = (c0 :: host') ++ ((p0 :: path') ++ search) := by
    rw [List.append_assoc]
  rw [hassoc]
  have hhostall : ∀ c ∈ c0 :: host', (!isHostEnd c) = true := by
    intro c hc
    simp [(hhostc c hc).1]
  rw [takeWhile_append_of_all _ hhostall, dropWhile_append_of_all _ hhostall]
  have hstop : ((p0 :: path') ++ search).takeWhile (fun c => !isHostEnd c) = [] := by
    show ((p0 :: (path' ++ search)).takeWhile _) = _
    rw [List.takeWhile_cons]
    simp [hp0]
  have hstay : ((p0 :: path') ++ search).dropWhile (fun c => !isHostEnd c)
      = (p0 :: path') ++ search := by
    show ((p0 :: (path' ++ search)).dropWhile _) = _
    rw [List.dropWhile_cons]
    simp [hp0]
  rw [hstop, hstay, List.append_nil]
  have hpathall : ∀ c ∈ p0 :: path', (c != '?') = true := by
    intro c hc
    simpa using (hpathc c hc).1
  rw [takeWhile_append_of_all _ hpathall, dropWhile_append_of_all _ hpathall]
  have hqtake : search.takeWhile (fun c => c != '?') = [] := by
    rcases hsearch with rfl | hd
    · rfl
    · cases search with
      | nil => rfl
      | cons s0 s' =>
        simp only [List.head?_cons, Option.some.injEq] at hd
        subst hd
        rw [List.takeWhile_cons]
        simp
  have hqdrop : search.dropWhile (fun c => c != '?') = search := by
    rcases hsearch with rfl | hd
    · rfl
    · cases search with
      | nil => rfl
      | cons s0 s' =>
        simp only [List.head?_cons, Option.some.injEq] at hd
        subst hd
        rw [List.dropWhile_cons]
        simp
  rw [hqtake, hqdrop, List.append_nil]
  have hemp : (c0 :: host').isEmpty = false := rfl
  rw [hemp]
  have hmap : (c0 :: host').map Char.toLower = c0 :: host' := by
    have h1 : (c0 :: host').map Char.toLower = (c0 :: host').map id :=
      List.map_congr_left (fun a ha => (hhostc a ha).2.2)
    rw [h1, List.map_id]
  have hpe : (p0 :: path').isEmpty = false := rfl
  simp only [Bool.false_eq_true, if_false, hmap, hpe]

theorem urlParse_toStr (r : URLRec) (hwf : URLWf r) (hh : r.hash = "") :
    urlParse (URLRec.toStr r) = some r := by
  obtain ⟨hs, hhostne, hhostc, hpathne, hpathhd, hpathc, hsearch, hsearchc⟩ := hwf
  have hdata : (URLRec.toStr r).data
      = r.scheme.data ++ [':', '/', '/'] ++ r.host.data ++ r.pathname.data ++ r.search.data := by
    unfold URLRec.toStr
    rw [hh]
    have hcolon : "://".data = [':', '/', '/'] := rfl
    have hempty : "".data = ([] : List Char) := rfl
    simp only [String.data_append, hempty, List.append_nil]
  have hre := parseAfterScheme_reassemble r.scheme r.host.data r.pathname.data r.search.data
    hhostne hhostc hpathne hpathhd hpathc hsearch hsearchc
  have hrec : (⟨r.scheme, ⟨r.host.data⟩, ⟨r.pathname.data⟩, ⟨r.search.data⟩, ""⟩ : URLRec)
      = r := by
    obtain ⟨s1, s2, s3, s4, s5⟩ := r
    simp only at hh
    rw [hh]
  rcases hs with hs | hs
  · have hd2 : (URLRec.toStr r).data
        = 'h' :: 't' :: 't' :: 'p' :: 's' :: ':' :: ('/' :: '/' ::
            (r.host.data ++ r.pathname.data ++ r.search.data)) := by
      rw [hdata, hs]
      rfl
    unfold urlParse
    rw [hd2, dropSchemeCI_https]
    show parseAfterScheme "https" ('/' :: '/' :: (r.host.data ++ r.pathname.data ++ r.search.data))
      = some r
    have hpeel : parseAfterScheme "https"
        ('/' :: '/' :: (r.host.data ++ r.pathname.data ++ r.search.data))
        = parseAfterScheme "https" (r.host.data ++ r.pathname.data ++ r.search.data) := by
      unfold parseAfterScheme
      dsimp only
      rw [List.dropWhile_cons, List.dropWhile_cons]
      simp
    rw [hpeel, ← hs, hre, hrec]
  · have hd2 : (URLRec.toStr r).data
        = 'h' :: 't' :: 't' :: 'p' :: ':' :: ('/' :: '/' ::
            (r.host.data ++ r.pathname.data ++ r.search.data)) := by
      rw [hdata, hs]
      rfl
    unfold urlParse
    rw [hd2, dropSchemeCI_https_on_http, dropSchemeCI_http]
    show parseAfterScheme "http" ('/' :: '/' :: (r.host.data ++ r.pathname.data ++ r.search.data))
      = some r
    have hpeel : parseAfterScheme "http"
        ('/' :: '/' :: (r.host.data ++ r.pathname.data ++ r.search.data))
        = parseAfterScheme "http" (r.host.data ++ r.pathname.data ++ r.search.data) := by
      unfold parseAfterScheme
      dsimp only
      rw [List.dropWhile_cons, List.dropWhile_cons]
      simp
    rw [hpeel, ← hs, hre, hrec]

theorem toStr_data (r : URLRec) (hh : r.hash = "") :
    (URLRec.toStr r).data = r.scheme.data ++ [':', '/', '/'] ++ r.host.data
      ++ r.pathname.data ++ r.search.data := by
  unfold URLRec.toStr
  rw [hh]
  have hempty : "".data = ([] : List Char) := rfl
  simp only [String.data_append, hempty, List.append_nil]

theorem getLast?_append_ne {l m : List Char} (hm : m ≠ []) :
    (l ++ m).getLast? = m.getLast? := by
  rw [List.getLast?_append]
  obtain ⟨c, cs, rfl⟩ := List.exists_cons_of_ne_nil hm
  cases hgl : (c :: cs).getLast? with
  | none => simp at hgl
  | some x => rfl

theorem dropLast_append_ne {l m : List Char} (hm : m ≠ []) :
    (l ++ m).dropLast = l ++ m.dropLast := by
  rw [List.dropLast_append]
  obtain ⟨c, cs, rfl⟩ := List.exists_cons_of_ne_nil hm
  rfl

theorem urlParse_hostOnly (scheme : String) (host : List Char)
    (hs : scheme = "https" ∨ scheme = "http")
    (hhostne : host ≠ [])
    (hhostc : ∀ c ∈ host, isHostEnd c = false ∧ c ≠ '#' ∧ c.toLower = c) :
    urlParse ⟨scheme.data ++ [':', '/', '/'] ++ host⟩
      = some ⟨scheme, ⟨host⟩, "/", "", ""⟩ := by
  obtain ⟨c0, host', rfl⟩ := List.exists_cons_of_ne_nil hhostne
  have hc0 := hhostc c0 (by simp)
  have hcore : parseAfterScheme scheme ('/' :: '/' :: (c0 :: host'))
      = some ⟨scheme, ⟨c0 :: host'⟩, "/", "", ""⟩ := by
    unfold parseAfterScheme
    dsimp only
    rw [List.dropWhile_cons, List.dropWhile_cons, List.dropWhile_cons]
    have hc0or : (c0 == '/' || c0 == '\\') = false := by
      have h1 := hc0.1
      unfold isHostEnd at h1
      rcases Bool.or_eq_false_iff.mp h1 with ⟨h2, h3⟩
      rcases Bool.or_eq_false_iff.mp h2 with ⟨h4, -⟩
      simp [h4, h3]
    simp only [show (('/' : Char) == '/' || ('/' : Char) == '\\') = true from rfl, if_true,
      hc0or, Bool.false_eq_true, if_false]
    have hall : ∀ c ∈ c0 :: host', (c != '#') = true := by
      intro c hc
      simpa using (hhostc c hc).2.1
    rw [List.takeWhile_eq_self_iff.mpr hall, List.dropWhile_eq_nil_iff.mpr hall]
    have hhostall : ∀ c ∈ c0 :: host', (!isHostEnd c) = true := by
      intro c hc
      simp [(hhostc c hc).1]
    rw [List.takeWhile_eq_self_iff.mpr hhostall]
    have hdw : (c0 :: host').dropWhile (fun c => !isHostEnd c) = [] :=
      List.dropWhile_eq_nil_iff.mpr hhostall
    rw [hdw]
    have hmap : (c0 :: host').map Char.toLower = c0 :: host' := by
      have h1 : (c0 :: host').map Char.toLower = (c0 :: host').map id :=
        List.map_congr_left (fun a ha => (hhostc a ha).2.2)
      rw [h1, List.map_id]
    simp [hmap]
  rcases hs with hs | hs
  · subst hs
    have hd : (⟨("https" : String).data ++ [':', '/', '/'] ++ (c0 :: host')⟩ : String).data
        = 'h' :: 't' :: 't' :: 'p' :: 's' :: ':' :: ('/' :: '/' :: (c0 :: host')) := rfl
    unfold urlParse
    rw [hd, dropSchemeCI_https]
    exact hcore
  · subst hs
    have hd : (⟨("http" : String).data ++ [':', '/', '/'] ++ (c0 :: host')⟩ : String).data
        = 'h' :: 't' :: 't' :: 'p' :: ':' :: ('/' :: '/' :: (c0 :: host')) := rfl
    unfold urlParse
    rw [hd, dropSchemeCI_https_on_http, dropSchemeCI_http]
    exact hcore

/-- C6 (amended): for every absolute http(s) URL `u`, `normalizeUrl u`
removes the fragment and then removes one trailing `/` from the
fragment-free serialization whenever it ends in `/` — including when
the path is exactly `/` (the root URL normalizes to the bare origin,
with no trailing slash); otherwise the serialization, query included,
is returned as is. -/
theorem C6_normalizeUrl_on_absolute (u : String) (r : URLRec)
    (h : urlParse u = some r) (hs : r.scheme = "http" ∨ r.scheme = "https") :
    normalizeUrl u =
      (if endsSlash (URLRec.toStr { r with hash := "" })
       then dropLastChar (URLRec.toStr { r with hash := "" })
       else URLRec.toStr { r with hash := "" }) :=
  normalizeUrl_eq_stripOnce u r h

/-- Witness for C6 at a concrete absolute URL with path, query and
fragment. -/
theorem C6_witness :
    urlParse "https://example.com/page?id=1#sec"
        = some ⟨"https", "example.com", "/page", "?id=1", "#sec"⟩
    ∧ normalizeUrl "https://example.com/page?id=1#sec"
        = (if endsSlash (URLRec.toStr ⟨"https", "example.com", "/page", "?id=1", ""⟩)
           then dropLastChar (URLRec.toStr ⟨"https", "example.com", "/page", "?id=1", ""⟩)
           else URLRec.toStr ⟨"https", "example.com", "/page", "?id=1", ""⟩) :=
  ⟨by decide,
   C6_normalizeUrl_on_absolute "https://example.com/page?id=1#sec"
     ⟨"https", "example.com", "/page", "?id=1", "#sec"⟩ (by decide) (Or.inr rfl)⟩

/-- C6 (counterexample): the claim says the trailing slash is kept when
the path is exactly `/`, but the source strips it a second time for the
root path: `https://example.com/` normalizes to `https://example.com`,
which does not end in `/`. -/
theorem C6_counterexample :
    (urlParse "https://example.com/").map (fun r => r.pathname) = some "/"
    ∧ normalizeUrl "https://example.com/" = "https://example.com"
    ∧ endsSlash "https://example.com" = false := by
  refine ⟨by decide, by decide, by decide⟩

theorem normalize_fixed_of_parse {s : String} {r : URLRec}
    (hp : urlParse s = some r) (hts : URLRec.toStr { r with hash := "" } = s)
    (hes : endsSlash s = false) : normalizeUrl s = s := by
  rw [normalizeUrl_eq_stripOnce s r hp, hts, hes]
  simp

theorem normalize_root_of_parse {s' : String} {r : URLRec}
    (hp : urlParse s' = some r)
    (hts : dropLastChar (URLRec.toStr { r with hash := "" }) = s')
    (hes : endsSlash (URLRec.toStr { r with hash := "" }) = true) :
    normalizeUrl s' = s' := by
  rw [normalizeUrl_eq_stripOnce s' r hp, if_pos hes, hts]

/-- C7 (amended): URL normalization is idempotent on every input except
those whose fragment-stripped serialization ends in two slashes (the
single `slice(0,-1)` removes only one of them, so a second
normalization strips again).  Unparseable inputs are returned unchanged
and are trivially idempotent. -/
theorem C7_normalizeUrl_idempotent (u : String)
    (hcond : ∀ r, urlParse u = some r →
      endsDoubleSlash (URLRec.toStr { r with hash := "" }) = false) :
    normalizeUrl (normalizeUrl u) = normalizeUrl u := by
  cases hp : urlParse u with
  | none =>
    have h1 : normalizeUrl u = u := by
      unfold normalizeUrl
      rw [hp]
    rw [h1, h1]
  | some r =>
    have hwf : URLWf r := urlParse_wf hp
    have hwf0 : URLWf { r with hash := "" } := hwf
    have heq := normalizeUrl_eq_stripOnce u r hp
    have hdbl := hcond r hp
    have hrt : urlParse (URLRec.toStr { r with hash := "" }) = some { r with hash := "" } :=
      urlParse_toStr _ hwf0 rfl
    obtain ⟨hsch, hhostne, hhostc, hpathne, hpathhd, hpathc, hsearch, hsearchc⟩ := hwf
    have hsdata : (URLRec.toStr { r with hash := "" }).data
        = r.scheme.data ++ [':', '/', '/'] ++ r.host.data ++ r.pathname.data
          ++ r.search.data := toStr_data _ rfl
    by_cases hes : endsSlash (URLRec.toStr { r with hash := "" }) = true
    · rw [heq, if_pos hes]
      have hesd : endsSlash (dropLastChar (URLRec.toStr { r with hash := "" })) = false := by
        unfold endsDoubleSlash at hdbl
        rcases Bool.and_eq_false_iff.mp hdbl with h1 | h1
        · rw [hes] at h1
          cases h1
        · exact h1
      have hlastS : (URLRec.toStr { r with hash := "" }).data.getLast? = some '/' := by
        have := hes
        unfold endsSlash at this
        simpa using this
      cases hsd : r.search.data with
      | cons q0 qtail =>
        have hqhead : q0 = '?' := by
          rcases hsearch with hnil | hd
          · rw [hsd] at hnil
            cases hnil
          · rw [hsd] at hd
            simp only [List.head?_cons, Option.some.injEq] at hd
            exact hd
        subst hqhead
        have hlast : ('?' :: qtail).getLast? = some '/' := by
          rw [hsdata, getLast?_append_ne (by rw [hsd]; simp)] at hlastS
          rw [← hsd]
          exact hlastS
        have hqt : qtail ≠ [] := by
          intro hq
          subst hq
          simp at hlast
        obtain ⟨q1, qrest, rfl⟩ := List.exists_cons_of_ne_nil hqt
        have hwf2 : URLWf ⟨r.scheme, r.host, r.pathname,
            ⟨('?' :: q1 :: qrest).dropLast⟩, ""⟩ := by
          refine ⟨hsch, hhostne, hhostc, hpathne, hpathhd, hpathc, ?_, ?_⟩
          · right
            rw [List.dropLast_cons₂]
            rfl
          · intro c hc
            refine hsearchc c ?_
            rw [hsd]
            exact List.dropLast_subset _ hc
        have hts2 : URLRec.toStr ⟨r.scheme, r.host, r.pathname,
            ⟨('?' :: q1 :: qrest).dropLast⟩, ""⟩
            = dropLastChar (URLRec.toStr { r with hash := "" }) := by
          apply String.ext
          show _ = (URLRec.toStr { r with hash := "" }).data.dropLast
          rw [hsdata, toStr_data _ rfl]
          show r.scheme.data ++ [':', '/', '/'] ++ r.host.data ++ r.pathname.data
            ++ ('?' :: q1 :: qrest).dropLast = _
          rw [dropLast_append_ne (by rw [hsd]; simp), hsd]
        have hp2 : urlParse (dropLastChar (URLRec.toStr { r with hash := "" }))
            = some ⟨r.scheme, r.host, r.pathname, ⟨('?' :: q1 :: qrest).dropLast⟩, ""⟩ := by
          rw [← hts2]
          exact urlParse_toStr _ hwf2 rfl
        exact normalize_fixed_of_parse hp2 hts2 hesd
      | nil =>
        have hplast : r.pathname.data.getLast? = some '/' := by
          rw [hsdata, hsd, List.append_nil, getLast?_append_ne hpathne] at hlastS
          exact hlastS
        have hsearchstr : r.search = "" := String.ext hsd
        by_cases hroot : r.pathname = "/"
        · have hrec : ({ r with hash := "" } : URLRec)
              = ⟨r.scheme, r.host, "/", "", ""⟩ := by
            obtain ⟨s1, s2, s3, s4, s5⟩ := r
            simp only at hroot hsearchstr
            rw [hroot, hsearchstr]
          have hs'eq : dropLastChar (URLRec.toStr { r with hash := "" })
              = ⟨r.scheme.data ++ [':', '/', '/'] ++ r.host.data⟩ := by
            apply String.ext
            show (URLRec.toStr { r with hash := "" }).data.dropLast = _
            rw [hsdata, hsd, List.append_nil, hroot]
            show (r.scheme.data ++ [':', '/', '/'] ++ r.host.data ++ ['/']).dropLast = _
            rw [List.dropLast_concat]
          have hparse : urlParse (dropLastChar (URLRec.toStr { r with hash := "" }))
              = some { r with hash := "" } := by
            rw [hs'eq, urlParse_hostOnly r.scheme r.host.data hsch hhostne hhostc, hrec]
          exact normalize_root_of_parse hparse rfl hes
        · have hpl2 : ∃ a b rest, r.pathname.data = a :: b :: rest := by
            obtain ⟨a, t, hat⟩ := List.exists_cons_of_ne_nil hpathne
            cases t with
            | nil =>
              rw [hat] at hplast
              simp only [List.getLast?_singleton, Option.some.injEq] at hplast
              exfalso
              apply hroot
              apply String.ext
              rw [hat, hplast]
            | cons b rest => exact ⟨a, b, rest, hat⟩
          obtain ⟨a, b, rest, hab⟩ := hpl2
          have hwf2 : URLWf ⟨r.scheme, r.host, ⟨r.pathname.data.dropLast⟩, "", ""⟩ := by
            refine ⟨hsch, hhostne, hhostc, ?_, ?_, ?_, Or.inl rfl, by intro c hc; cases hc⟩
            · rw [hab, List.dropLast_cons₂]
              simp
            · rw [hab, List.dropLast_cons₂]
              rw [hab] at hpathhd
              simpa using hpathhd
            · intro c hc
              exact hpathc c (List.dropLast_subset _ hc)
          have hLHS : (URLRec.toStr ⟨r.scheme, r.host, ⟨r.pathname.data.dropLast⟩, "", ""⟩).data
              = r.scheme.data ++ [':', '/', '/'] ++ r.host.data ++ r.pathname.data.dropLast := by
            rw [toStr_data _ rfl]
            show r.scheme.data ++ [':', '/', '/'] ++ r.host.data ++ r.pathname.data.dropLast
              ++ ([] : List Char) = _
            rw [List.append_nil]
          have hRHS : (dropLastChar (URLRec.toStr { r with hash := "" })).data
              = r.scheme.data ++ [':', '/', '/'] ++ r.host.data ++ r.pathname.data.dropLast := by
            show (URLRec.toStr { r with hash := "" }).data.dropLast = _
            rw [hsdata, hsd, List.append_nil, dropLast_append_ne hpathne]
          have hts2 : URLRec.toStr ⟨r.scheme, r.host, ⟨r.pathname.data.dropLast⟩, "", ""⟩
              = dropLastChar (URLRec.toStr { r with hash := "" }) :=
            String.ext (hLHS.trans hRHS.symm)
          have hp2 : urlParse (dropLastChar (URLRec.toStr { r with hash := "" }))
              = some ⟨r.scheme, r.host, ⟨r.pathname.data.dropLast⟩, "", ""⟩ := by
            rw [← hts2]
            exact urlParse_toStr _ hwf2 rfl
          exact normalize_fixed_of_parse hp2 hts2 hesd
    · rw [heq, if_neg hes]
      have hes2 : endsSlash (URLRec.toStr { r with hash := "" }) = false := by
        cases hx : endsSlash (URLRec.toStr { r with hash := "" })
        · rfl
        · exact absurd hx hes
      exact normalize_fixed_of_parse hrt rfl hes2

/-- Witness for C7 at a concrete URL satisfying the no-double-slash
condition. -/
theorem C7_witness :
    normalizeUrl (normalizeUrl "https://example.com/a")
      = normalizeUrl "https://example.com/a" :=
  C7_normalizeUrl_idempotent "https://example.com/a" (by
    intro r hr
    have h2 : urlParse "https://example.com/a"
        = some ⟨"https", "example.com", "/a", "", ""⟩ := by decide
    rw [h2] at hr
    have h3 := (Option.some.inj hr).symm
    subst h3
    decide)

/-- C7 (counterexample): normalization is not idempotent on
`https://example.com//` — the first pass strips one slash, giving
`https://example.com/`, and the second pass strips the remaining root
slash, giving `https://example.com`. -/
theorem C7_counterexample :
    normalizeUrl "https://example.com//" = "https://example.com/"
    ∧ normalizeUrl (normalizeUrl "https://example.com//") = "https://example.com"
    ∧ normalizeUrl (normalizeUrl "https://example.com//")
        ≠ normalizeUrl "https://example.com//" := by
  refine ⟨by decide, by decide, by decide⟩

theorem summaryStep_byType (acc : SummaryAcc) (b : Bug) :
    (summaryStep acc b).byType = incType acc.byType b.type := by
  unfold summaryStep
  cases b.severity <;> rfl

theorem summaryFold_sev (bugs : List Bug) (acc : SummaryAcc) :
    (bugs.foldl summaryStep acc).critical + (bugs.foldl summaryStep acc).warnings
      + (bugs.foldl summaryStep acc).info
      = acc.critical + acc.warnings + acc.info + bugs.length := by
  induction bugs generalizing acc with
  | nil => simp
  | cons b bs ih =>
    rw [List.foldl_cons, ih]
    have : (summaryStep acc b).critical + (summaryStep acc b).warnings
        + (summaryStep acc b).info = acc.critical + acc.warnings + acc.info + 1 := by
      unfold summaryStep
      cases b.severity <;> dsimp <;> omega
    rw [this, List.length_cons]
    omega

theorem incType_keys (m : List (BugType × Nat)) (t : BugType) :
    (incType m t).map Prod.fst = m.map Prod.fst := by
  unfold incType
  rw [List.map_map]
  apply List.map_congr_left
  intro kv _
  by_cases h : kv.1 = t <;> simp [h]

theorem summaryFold_keys (bugs : List Bug) (acc : SummaryAcc) :
    (bugs.foldl summaryStep acc).byType.map Prod.fst = acc.byType.map Prod.fst := by
  induction bugs generalizing acc with
  | nil => rfl
  | cons b bs ih =>
    rw [List.foldl_cons, ih, summaryStep_byType, incType_keys]

theorem sumByType_incType (m : List (BugType × Nat)) (t : BugType) :
    sumByType (incType m t) = sumByType m + (m.map Prod.fst).count t := by
  induction m with
  | nil => rfl
  | cons kv rest ih =>
    unfold incType at ih ⊢
    unfold sumByType at ih ⊢
    simp only [List.map_cons, List.sum_cons, List.count_cons]
    by_cases h : kv.1 = t
    · simp only [if_pos h, List.map_cons, List.sum_cons, h]
      rw [ih]
      simp only [beq_self_eq_true, if_pos]
      omega
    · simp only [if_neg h, List.map_cons, List.sum_cons]
      rw [ih]
      have hbe : (kv.1 == t) = false := by simp [h]
      rw [hbe]
      simp only [Bool.false_eq_true, if_false]
      omega

theorem summaryFold_sum (bugs : List Bug) (acc : SummaryAcc)
    (hkeys : acc.byType.map Prod.fst = ALL_BUG_TYPES) :
    sumByType (bugs.foldl summaryStep acc).byType = sumByType acc.byType + bugs.length := by
  induction bugs generalizing acc with
  | nil => simp
  | cons b bs ih =>
    rw [List.foldl_cons]
    have hk2 : (summaryStep acc b).byType.map Prod.fst = ALL_BUG_TYPES := by
      rw [summaryStep_byType, incType_keys, hkeys]
    rw [ih _ hk2, summaryStep_byType, sumByType_incType, hkeys]
    have hcount : ALL_BUG_TYPES.count b.type = 1 := by
      cases b.type <;> decide
    rw [hcount, List.length_cons]
    omega

/-- C1: for every report produced by `buildReport`, the summary is
internally consistent — `totalBugs` equals `critical + warnings + info`,
equals the sum of the six per-type counts in `byType` (whose keys are
exactly the six defect types, in order, each present even when zero),
and equals the sum over the report's pages of the length of each page's
defect list. -/
theorem C1_summary_consistent (freshId : Nat → String) (timestamp url : String)
    (pages : List PageReport) :
    ((buildReport freshId timestamp url pages).summary.totalBugs
        = (buildReport freshId timestamp url pages).summary.critical
          + (buildReport freshId timestamp url pages).summary.warnings
          + (buildReport freshId timestamp url pages).summary.info)
    ∧ ((buildReport freshId timestamp url pages).summary.totalBugs
        = sumByType (buildReport freshId timestamp url pages).summary.byType)
    ∧ ((buildReport freshId timestamp url pages).summary.byType.map Prod.fst
        = ALL_BUG_TYPES)
    ∧ ((buildReport freshId timestamp url pages).summary.totalBugs
        = ((buildReport freshId timestamp url pages).pages.map
            (fun p => p.bugs.length)).sum) := by
  unfold buildReport
  dsimp only
  unfold buildSummary
  dsimp only
  set allBugs := ((processPages freshId pages [] 0).1).flatMap (fun p => p.bugs) with hAll
  have hinitkeys : ((ALL_BUG_TYPES.map (fun t => (t, 0))).map Prod.fst : List BugType)
      = ALL_BUG_TYPES := by decide
  refine ⟨?_, ?_, ?_, ?_⟩
  · have := summaryFold_sev allBugs ⟨ALL_BUG_TYPES.map (fun t => (t, 0)), 0, 0, 0⟩
    dsimp at this
    omega
  · have := summaryFold_sum allBugs ⟨ALL_BUG_TYPES.map (fun t => (t, 0)), 0, 0, 0⟩ hinitkeys
    dsimp at this
    rw [this]
    have hzero : sumByType (ALL_BUG_TYPES.map (fun t => (t, 0))) = 0 := by decide
    rw [hzero]
    omega
  · have := summaryFold_keys allBugs ⟨ALL_BUG_TYPES.map (fun t => (t, 0)), 0, 0, 0⟩
    dsimp at this
    rw [this, hinitkeys]
  · rw [hAll, List.length_flatMap]
    rfl

theorem ne_empty_of_data (s : String) (h : s.data ≠ []) : s ≠ "" := by
  intro he
  apply h
  rw [he]

theorem data_append_ne (s t : String) (h : s.data ≠ []) : (s ++ t).data ≠ [] := by
  rw [String.data_append]
  intro he
  exact h (List.append_eq_nil.mp he).1

theorem templateFor_ne (b : Bug) : templateFor b ≠ "" := by
  obtain ⟨i, ty, sv, ti, de, pg, fx⟩ := b
  cases ty <;>
    · apply ne_empty_of_data
      show (templateFor _).data ≠ []
      unfold templateFor
      dsimp only
      repeat apply data_append_ne
      decide

theorem applyPrompts_ok : ∀ (bugs : List Bug) (prompts : List String),
    List.Forall₂ (fun a b => sameExceptFixPrompt a b ∧ a.fixPrompt ≠ "")
      (applyPrompts bugs prompts) bugs := by
  intro bugs
  induction bugs with
  | nil => intro prompts; cases prompts <;> exact List.Forall₂.nil
  | cons b bs ih =>
    intro prompts
    cases prompts with
    | nil =>
      unfold applyPrompts
      exact List.Forall₂.cons ⟨⟨rfl, rfl, rfl, rfl, rfl, rfl⟩, templateFor_ne b⟩ (ih [])
    | cons p ps =>
      unfold applyPrompts
      refine List.Forall₂.cons ⟨⟨rfl, rfl, rfl, rfl, rfl, rfl⟩, ?_⟩ (ih ps)
      by_cases hp : p = ""
      · simp only [if_pos hp]
        exact templateFor_ne b
      · simp only [if_neg hp]
        exact hp

theorem generateTemplatePrompts_ok (bugs : List Bug) :
    List.Forall₂ (fun a b => sameExceptFixPrompt a b ∧ a.fixPrompt ≠ "")
      (generateTemplatePrompts bugs) bugs := by
  induction bugs with
  | nil => exact List.Forall₂.nil
  | cons b bs ih =>
    exact List.Forall₂.cons ⟨⟨rfl, rfl, rfl, rfl, rfl, rfl⟩, templateFor_ne b⟩ ih

theorem cacheLookup_some {env : GenEnv} {b cb : Bug} (h : cacheLookup env b = some cb) :
    sameExceptFixPrompt cb b ∧ cb.fixPrompt ≠ "" := by
  unfold cacheLookup at h
  cases hc : env.cache (cacheKey env.digest b.type.str b.title b.details) with
  | none => rw [hc] at h; cases h
  | some s =>
    rw [hc] at h
    dsimp only at h
    by_cases hs : s = ""
    · rw [if_pos hs] at h; cases h
    · rw [if_neg hs] at h
      cases Option.some.inj h
      exact ⟨⟨rfl, rfl, rfl, rfl, rfl, rfl⟩, hs⟩

theorem firstKeys_cons (x : String) (xs : List String) :
    firstKeys (x :: xs) = x :: (firstKeys xs).filter (fun y => y ≠ x) := rfl

theorem firstKeys_mem {y : String} : ∀ {xs : List String}, y ∈ firstKeys xs → y ∈ xs := by
  intro xs
  induction xs with
  | nil => intro h; cases h
  | cons x t ih =>
    intro h
    rw [firstKeys_cons] at h
    rcases List.mem_cons.mp h with rfl | h
    · exact List.mem_cons_self _ _
    · exact List.mem_cons_of_mem _ (ih (List.mem_of_mem_filter h))

theorem filter_ne_idem (x : String) (l : List String) :
    (l.filter (fun y => y ≠ x)).filter (fun y => y ≠ x) = l.filter (fun y => y ≠ x) := by
  induction l with
  | nil => rfl
  | cons a t ih =>
    by_cases h : a = x
    · simp [h, ih]
    · simp [h, ih]

theorem firstKeys_absorb (p : String) : ∀ (n : Nat) (xs : List String),
    firstKeys (p :: (List.replicate n p ++ xs)) = firstKeys (p :: xs) := by
  intro n
  induction n with
  | zero => intro xs; rfl
  | succ m ih =>
    intro xs
    show firstKeys (p :: p :: (List.replicate m p ++ xs)) = _
    rw [firstKeys_cons, ih xs, firstKeys_cons]
    rw [List.filter_cons]
    simp only [show (decide (p ≠ p)) = false by simp, Bool.false_eq_true, if_false]
    rw [filter_ne_idem]

theorem map_page_const (p : String) : ∀ (blk : List Bug), (∀ b ∈ blk, b.page = p) →
    blk.map (fun b => b.page) = List.replicate blk.length p := by
  intro blk
  induction blk with
  | nil => intro _; rfl
  | cons b t ih =>
    intro h
    rw [List.map_cons, h b (List.mem_cons_self _ _), List.length_cons, List.replicate_succ,
      ih (fun x hx => h x (List.mem_cons_of_mem _ hx))]

theorem flatMap_congr_mem {α β : Type} {l : List α} {f g : α → List β}
    (h : ∀ a ∈ l, f a = g a) : l.flatMap f = l.flatMap g := by
  induction l with
  | nil => rfl
  | cons a t ih =>
    rw [List.flatMap_cons, List.flatMap_cons, h a (List.mem_cons_self _ _),
      ih (fun x hx => h x (List.mem_cons_of_mem _ hx))]

theorem flatten_pages_mem {chunks : List (String × List Bug)}
    (hc : ∀ c ∈ chunks, c.2 ≠ [] ∧ ∀ b ∈ c.2, b.page = c.1) {b : Bug}
    (hb : b ∈ (chunks.map (fun c => c.2)).flatten) : b.page ∈ chunks.map (fun c => c.1) := by
  rw [List.mem_flatten] at hb
  obtain ⟨blk, hblk, hbmem⟩ := hb
  rw [List.mem_map] at hblk
  obtain ⟨c, hcmem, rfl⟩ := hblk
  rw [(hc c hcmem).2 b hbmem]
  exact List.mem_map_of_mem _ hcmem

theorem firstKeys_chunks : ∀ (chunks : List (String × List Bug)),
    (chunks.map (fun c => c.1)).Nodup →
    (∀ c ∈ chunks, c.2 ≠ [] ∧ ∀ b ∈ c.2, b.page = c.1) →
    firstKeys (((chunks.map (fun c => c.2)).flatten).map (fun b => b.page))
      = chunks.map (fun c => c.1) := by
  intro chunks
  induction chunks with
  | nil => intro _ _; rfl
  | cons c rest ih =>
    intro hnd hok
    obtain ⟨p, blk⟩ := c
    have hblk := hok (p, blk) (List.mem_cons_self _ _)
    obtain ⟨b0, blk', rfl⟩ := List.exists_cons_of_ne_nil hblk.1
    rw [List.map_cons, List.map_cons, List.flatten_cons, List.map_append]
    have hmapblk : (b0 :: blk').map (fun b => b.page)
        = p :: List.replicate blk'.length p := by
      have := map_page_const p (b0 :: blk') hblk.2
      rw [List.length_cons, List.replicate_succ] at this
      exact this
    rw [hmapblk]
    show firstKeys (p :: (List.replicate blk'.length p ++ _)) = _
    rw [firstKeys_absorb, firstKeys_cons]
    have hrest : firstKeys (((rest.map (fun c => c.2)).flatten).map (fun b => b.page))
        = rest.map (fun c => c.1) := by
      apply ih
      · exact (List.nodup_cons.mp hnd).2
      · intro x hx
        exact hok x (List.mem_cons_of_mem _ hx)
    rw [hrest]
    have hpnot : p ∉ rest.map (fun c => c.1) := by
      have := (List.nodup_cons.mp hnd).1
      simpa using this
    have hfil : (rest.map (fun c => c.1)).filter (fun y => y ≠ p)
        = rest.map (fun c => c.1) := by
      rw [List.filter_eq_self]
      intro y hy
      simp only [decide_eq_true_eq, ne_eq]
      intro he
      rw [he] at hy
      exact hpnot hy
    rw [hfil]

theorem generateWithApi_ok (env : GenEnv) : ∀ (chunks : List (String × List Bug)),
    (chunks.map (fun c => c.1)).Nodup →
    (∀ c ∈ chunks, c.2 ≠ [] ∧ ∀ b ∈ c.2, b.page = c.1) →
    List.Forall₂ (fun a b => sameExceptFixPrompt a b ∧ a.fixPrompt ≠ "")
      (generateWithApi env ((chunks.map (fun c => c.2)).flatten))
      ((chunks.map (fun c => c.2)).flatten) := by
  intro chunks
  induction chunks with
  | nil => intro _ _; exact List.Forall₂.nil
  | cons c rest ih =>
    intro hnd hok
    obtain ⟨p, blk⟩ := c
    have hblk := hok (p, blk) (List.mem_cons_self _ _)
    have hrestok : ∀ x ∈ rest, x.2 ≠ [] ∧ ∀ b ∈ x.2, b.page = x.1 :=
      fun x hx => hok x (List.mem_cons_of_mem _ hx)
    have hrestnd : (rest.map (fun c => c.1)).Nodup := (List.nodup_cons.mp hnd).2
    have hpnot : p ∉ rest.map (fun c => c.1) := by
      simpa using (List.nodup_cons.mp hnd).1
    have hkeys : firstKeys (((blk :: rest.map (fun c => c.2)).flatten).map (fun b => b.page))
        = p :: rest.map (fun c => c.1) := by
      have := firstKeys_chunks ((p, blk) :: rest) hnd hok
      simpa using this
    rw [List.map_cons, List.flatten_cons]
    unfold generateWithApi
    dsimp only
    rw [show (blk ++ (rest.map (fun c => c.2)).flatten).map (fun b => b.page)
        = ((blk :: rest.map (fun c => c.2)).flatten).map (fun b => b.page) from rfl]
    rw [hkeys, List.flatMap_cons]
    have hfiltblk : (blk ++ (rest.map (fun c => c.2)).flatten).filter (fun b => b.page = p)
        = blk := by
      rw [List.filter_append]
      have h1 : blk.filter (fun b => b.page = p) = blk :=
        List.filter_eq_self.mpr (fun b hb => by simp [hblk.2 b hb])
      have h2 : ((rest.map (fun c => c.2)).flatten).filter (fun b => b.page = p) = [] := by
        rw [List.filter_eq_nil_iff]
        intro b hb
        have hbm := flatten_pages_mem hrestok hb
        simp only [decide_eq_true_eq]
        intro he
        rw [he] at hbm
        exact hpnot hbm
      rw [h1, h2, List.append_nil]
    have heq2 : ((rest.map (fun c => c.1)).flatMap (fun pg =>
          match env.apiResponse pg ((blk ++ (rest.map (fun c => c.2)).flatten).filter
              (fun b => b.page = pg)) with
          | some prompts => applyPrompts ((blk ++ (rest.map (fun c => c.2)).flatten).filter
              (fun b => b.page = pg)) prompts
          | none => generateTemplatePrompts ((blk ++ (rest.map (fun c => c.2)).flatten).filter
              (fun b => b.page = pg))))
        = generateWithApi env ((rest.map (fun c => c.2)).flatten) := by
      unfold generateWithApi
      dsimp only
      rw [firstKeys_chunks rest hrestnd hrestok]
      apply flatMap_congr_mem
      intro pg hpg
      have hne : pg ≠ p := by
        intro he
        rw [he] at hpg
        exact hpnot hpg
      have hf : (blk ++ (rest.map (fun c => c.2)).flatten).filter (fun b => b.page = pg)
          = ((rest.map (fun c => c.2)).flatten).filter (fun b => b.page = pg) := by
        rw [List.filter_append]
        have hnilb : blk.filter (fun b => b.page = pg) = [] := by
          rw [List.filter_eq_nil_iff]
          intro b hb
          simp only [decide_eq_true_eq]
          rw [hblk.2 b hb]
          intro he
          exact hne he.symm
        rw [hnilb, List.nil_append]
      rw [hf]
    rw [hfiltblk, heq2]
    refine List.rel_append ?_ (ih hrestnd hrestok)
    cases env.apiResponse p blk with
    | some prompts => exact applyPrompts_ok blk prompts
    | none => exact generateTemplatePrompts_ok blk

theorem uncached_eq_filter (env : GenEnv) : ∀ (bugs : List Bug),
    (bugs.zip (bugs.map (cacheLookup env))).filterMap
        (fun bc => if bc.2.isNone then some bc.1 else none)
      = bugs.filter (fun b => (cacheLookup env b).isNone) := by
  intro bugs
  induction bugs with
  | nil => rfl
  | cons b bs ih =>
    rw [List.map_cons, List.zip_cons_cons, List.filterMap_cons, List.filter_cons]
    by_cases hn : (cacheLookup env b).isNone
    · simp only [hn, if_true, ih]
    · simp only [hn, Bool.false_eq_true, if_false, ih]

theorem chunked_filter (q : Bug → Bool) (l : List Bug) (h : PageChunked l) :
    PageChunked (l.filter q) := by
  obtain ⟨chunks, rfl, hnd, hok⟩ := h
  refine ⟨(chunks.map (fun c => (c.1, c.2.filter q))).filter (fun c => !c.2.isEmpty),
    ?_, ?_, ?_⟩
  · induction chunks with
    | nil => rfl
    | cons c rest ih =>
      obtain ⟨p, blk⟩ := c
      have ihr := ih ((List.nodup_cons.mp hnd).2) (fun x hx => hok x (List.mem_cons_of_mem _ hx))
      rw [List.map_cons, List.flatten_cons, List.filter_append, List.map_cons,
        List.filter_cons]
      by_cases he : (blk.filter q).isEmpty
      · have hbe : blk.filter q = [] := by
          cases hfq : blk.filter q
          · rfl
          · rw [hfq] at he; cases he
        simp only [he, Bool.not_true, Bool.false_eq_true, if_false]
        rw [hbe, List.nil_append]
        exact ihr
      · simp only [he, Bool.not_false, if_true]
        rw [List.map_cons, List.flatten_cons]
        rw [ihr]
  · have hsub : ((chunks.map (fun c => (c.1, c.2.filter q))).filter
        (fun c => !c.2.isEmpty)).Sublist (chunks.map (fun c => (c.1, c.2.filter q))) :=
      List.filter_sublist _
    have hkeysub := hsub.map (fun c => c.1)
    have hkeq : (chunks.map (fun c => (c.1, c.2.filter q))).map (fun c => c.1)
        = chunks.map (fun c => c.1) := by
      rw [List.map_map]
      rfl
    rw [hkeq] at hkeysub
    exact hnd.sublist hkeysub
  · intro c hc
    have hc2 := List.mem_of_mem_filter hc
    have hcp := List.mem_filter.mp hc
    obtain ⟨orig, horig, rfl⟩ := List.mem_map.mp hc2
    refine ⟨?_, ?_⟩
    · intro hnil
      have := hcp.2
      rw [hnil] at this
      cases this
    · intro b hb
      exact (hok orig horig).2 b (List.mem_of_mem_filter hb)

theorem mergeResults_ok (env : GenEnv) : ∀ (bugs news : List Bug),
    List.Forall₂ (fun a b => sameExceptFixPrompt a b ∧ a.fixPrompt ≠ "") news
      ((bugs.zip (bugs.map (cacheLookup env))).filterMap
        (fun bc => if bc.2.isNone then some bc.1 else none)) →
    List.Forall₂ (fun a b => sameExceptFixPrompt a b ∧ a.fixPrompt ≠ "")
      (mergeResults (bugs.map (cacheLookup env)) news) bugs := by
  intro bugs
  induction bugs with
  | nil =>
    intro news _
    exact List.Forall₂.nil
  | cons b bs ih =>
    intro news hR
    rw [uncached_eq_filter] at hR
    rw [List.filter_cons] at hR
    rw [List.map_cons]
    cases hc : cacheLookup env b with
    | some cb =>
      rw [hc] at hR
      simp only [Option.isNone_some, Bool.false_eq_true, if_false] at hR
      show List.Forall₂ _ (cb :: mergeResults (bs.map (cacheLookup env)) news) (b :: bs)
      refine List.Forall₂.cons (cacheLookup_some hc) ?_
      apply ih
      rw [uncached_eq_filter]
      exact hR
    | none =>
      rw [hc] at hR
      simp only [Option.isNone_none, if_true] at hR
      cases news with
      | nil =>
        cases hR
      | cons n news' =>
        obtain ⟨hhead, htail⟩ := List.forall₂_cons.mp hR
        show List.Forall₂ _ (n :: mergeResults (bs.map (cacheLookup env)) news') (b :: bs)
        refine List.Forall₂.cons hhead ?_
        apply ih
        rw [uncached_eq_filter]
        exact htail

theorem allCached_ok (env : GenEnv) : ∀ (bugs : List Bug),
    (∀ b ∈ bugs, (cacheLookup env b).isSome = true) →
    List.Forall₂ (fun a b => sameExceptFixPrompt a b ∧ a.fixPrompt ≠ "")
      ((bugs.map (cacheLookup env)).map (fun c => c.getD undefinedBug)) bugs := by
  intro bugs
  induction bugs with
  | nil => intro _; exact List.Forall₂.nil
  | cons b bs ih =>
    intro hall
    rw [List.map_cons, List.map_cons]
    cases hc : cacheLookup env b with
    | none =>
      have := hall b (List.mem_cons_self _ _)
      rw [hc] at this
      cases this
    | some cb =>
      refine List.Forall₂.cons ?_ (ih (fun x hx => hall x (List.mem_cons_of_mem _ hx)))
      simpa using cacheLookup_some hc

theorem forall₂_getElem {α β : Type} {R : α → β → Prop} : ∀ {l₁ : List α} {l₂ : List β},
    List.Forall₂ R l₁ l₂ → ∀ (i : Nat) (a : α) (b : β),
      l₁[i]? = some a → l₂[i]? = some b → R a b := by
  intro l₁ l₂ h
  induction h with
  | nil => intro i a b h1; simp at h1
  | cons hab htail ih =>
    intro i a b h1 h2
    cases i with
    | zero =>
      rw [List.getElem?_cons_zero] at h1 h2
      cases Option.some.inj h1
      cases Option.some.inj h2
      exact hab
    | succ j =>
      rw [List.getElem?_cons_succ] at h1 h2
      exact ih j a b h1 h2

theorem forall₂_mem_left {α β : Type} {R : α → β → Prop} : ∀ {l₁ : List α} {l₂ : List β},
    List.Forall₂ R l₁ l₂ → ∀ a ∈ l₁, ∃ b ∈ l₂, R a b := by
  intro l₁ l₂ h
  induction h with
  | nil => intro a ha; cases ha
  | cons hab htail ih =>
    intro a ha
    rcases List.mem_cons.mp ha with rfl | ha
    · exact ⟨_, List.mem_cons_self _ _, hab⟩
    · obtain ⟨b, hb, hr⟩ := ih a ha
      exact ⟨b, List.mem_cons_of_mem _ hb, hr⟩

theorem generateFixPrompts_forall₂ (env : GenEnv) (bugs : List Bug)
    (h : PageChunked bugs) :
    List.Forall₂ (fun a b => sameExceptFixPrompt a b ∧ a.fixPrompt ≠ "")
      (generateFixPrompts env bugs).bugs bugs := by
  unfold generateFixPrompts
  by_cases hemp : bugs.isEmpty
  · rw [if_pos hemp]
    have hnil : bugs = [] := by
      cases bugs
      · rfl
      · cases hemp
    cases hnil
    exact List.Forall₂.nil
  · rw [if_neg hemp]
    dsimp only
    by_cases hunc : ((bugs.zip (bugs.map (cacheLookup env))).filterMap
        (fun bc => if bc.2.isNone then some bc.1 else none)).isEmpty
    · rw [if_pos hunc]
      apply allCached_ok
      intro b hb
      have hfil : bugs.filter (fun b => (cacheLookup env b).isNone) = [] := by
        rw [← uncached_eq_filter]
        cases hfq : (bugs.zip (bugs.map (cacheLookup env))).filterMap
            (fun bc => if bc.2.isNone then some bc.1 else none)
        · rfl
        · rw [hfq] at hunc; cases hunc
      have := List.filter_eq_nil_iff.mp hfil b hb
      simp only [Bool.not_eq_true] at this
      rw [Option.isNone_eq_false_iff, Option.isSome_iff_ne_none] at this
      rw [Option.isSome_iff_ne_none]
      exact this
    · rw [if_neg hunc]
      have huncF : List.Forall₂ (fun a b => sameExceptFixPrompt a b ∧ a.fixPrompt ≠ "")
          (generateWithApi env ((bugs.zip (bugs.map (cacheLookup env))).filterMap
            (fun bc => if bc.2.isNone then some bc.1 else none)))
          ((bugs.zip (bugs.map (cacheLookup env))).filterMap
            (fun bc => if bc.2.isNone then some bc.1 else none)) := by
        rw [uncached_eq_filter]
        have hchunk := chunked_filter (fun b => (cacheLookup env b).isNone) bugs h
        obtain ⟨chunks, hfl, hnd, hok⟩ := hchunk
        rw [hfl]
        exact generateWithApi_ok env chunks hnd hok
      cases hkey : env.apiKey with
      | none =>
        dsimp only
        exact mergeResults_ok env bugs _ (generateTemplatePrompts_ok _)
      | some k =>
        dsimp only
        by_cases hthrow : env.apiThrows
        · rw [if_pos hthrow]
          exact mergeResults_ok env bugs _ (generateTemplatePrompts_ok _)
        · rw [if_neg hthrow]
          exact mergeResults_ok env bugs _ huncF

/-- C4 (amended): for every input list of defects in which defects
sharing a `page` value are contiguous (as in every list the
orchestrator passes — a `flatMap` over per-page reports),
`generateFixPrompts` returns a list of the same length in the same
order, where the i-th output defect equals the i-th input defect in
every field except `fixPrompt`, and every output `fixPrompt` is a
non-empty string.  (On inputs with interleaved pages the external-API
path regroups by page and can reorder — see the counterexample.) -/
theorem C4_generateFixPrompts_frame (env : GenEnv) (bugs : List Bug)
    (h : PageChunked bugs) :
    (generateFixPrompts env bugs).bugs.length = bugs.length
    ∧ (∀ (i : Nat) (a b : Bug), (generateFixPrompts env bugs).bugs[i]? = some a →
        bugs[i]? = some b → sameExceptFixPrompt a b ∧ a.fixPrompt ≠ "")
    ∧ (∀ a ∈ (generateFixPrompts env bugs).bugs, a.fixPrompt ≠ "") := by
  have hF := generateFixPrompts_forall₂ env bugs h
  refine ⟨hF.length_eq, ?_, ?_⟩
  · intro i a b h1 h2
    exact forall₂_getElem hF i a b h1 h2
  · intro a ha
    obtain ⟨b, -, -, hne⟩ := forall₂_mem_left hF a ha
    exact hne

theorem C4_witness :
    (generateFixPrompts envW bugsW).bugs.length = bugsW.length
    ∧ (∀ (i : Nat) (a b : Bug), (generateFixPrompts envW bugsW).bugs[i]? = some a →
        bugsW[i]? = some b → sameExceptFixPrompt a b ∧ a.fixPrompt ≠ "")
    ∧ (∀ a ∈ (generateFixPrompts envW bugsW).bugs, a.fixPrompt ≠ "") :=
  C4_generateFixPrompts_frame envW bugsW
    ⟨[("https://s.example/a", bugsW)], rfl, by decide, by decide⟩

theorem C4_counterexample :
    ¬ sameExceptFixPrompt ((generateFixPrompts envEx bugsEx).bugs.getD 1 undefinedBug)
        (bugsEx.getD 1 undefinedBug) :=
  fun h => absurd h.2.2.2.1 (by decide)
